import Mathlib

/-!
# Verification of the KITSS book-PDF layout engine

A shallow embedding of the document layout and pagination engine of the
KITSS repository (markdown parser `services/markdownParser.ts`, PDF builder
`services/pdfService.ts` / `buildBookPdf`, image placement, table of
contents and footer passes), together with proofs and refutations of the
specification claims about it.

JavaScript numbers are modelled as `ℚ`; `pdf-lib` font objects are
modelled by their observable width metric (`String → ℚ → ℚ`); embedded
images are modelled by a dimension oracle keyed by asset id.  Drawing
calls are recorded as an event trace, which is what the claims about
drawing order and footer stamping quantify over.
-/

namespace KITSS

/-! ## JavaScript string primitives -/

/-- The whitespace class used by JavaScript `\s` and `String.prototype.trim`
(restricted to the code points that can actually occur in this pipeline). -/
def isJsSpace (c : Char) : Bool :=
  c = ' ' || c = '\t' || c = '\n' || c = '\r' || c = '\x0b' || c = '\x0c' || c = Char.ofNat 160

/-- `value.trim()` on a character list. -/
def jsTrim (l : List Char) : List Char :=
  ((l.dropWhile isJsSpace).reverse.dropWhile isJsSpace).reverse

/-- `value.trim()` on strings. -/
def jsTrimS (s : String) : String :=
  String.mk (jsTrim s.data)

/-- `value.replace(/\r\n/g, '\n')`: left-to-right, non-overlapping. -/
def crlfToLf : List Char → List Char
  | [] => []
  | [c] => [c]
  | c1 :: c2 :: rest =>
    if c1 = '\r' && c2 = '\n' then '\n' :: crlfToLf rest
    else c1 :: crlfToLf (c2 :: rest)

/-- `value.split('\n')` (JavaScript semantics: `"".split` gives `[""]`). -/
def splitLinesAux : List Char → List Char → List (List Char)
  | [], acc => [acc.reverse]
  | c :: rest, acc =>
    if c = '\n' then acc.reverse :: splitLinesAux rest []
    else splitLinesAux rest (c :: acc)

/-- `value.replace(/\s+/g, ' ')`: each maximal whitespace run becomes one space. -/
def collapseWs : List Char → List Char
  | [] => []
  | [c] => [if isJsSpace c then ' ' else c]
  | c1 :: c2 :: rest =>
    if isJsSpace c1 && isJsSpace c2 then collapseWs (c2 :: rest)
    else (if isJsSpace c1 then ' ' else c1) :: collapseWs (c2 :: rest)

/-- `normalizeWhitespace` from `markdownParser.ts`:
`value.replace(/\s+/g, ' ').trim()`. -/
def normalizeWhitespace (l : List Char) : List Char :=
  jsTrim (collapseWs l)

/-! ## Rich text spans and structured blocks (`pdfTypes.ts`) -/

/-- `RichTextSpan` from `pdfTypes.ts`; absent optional flags are `false`. -/
structure RichTextSpan where
  text : String
  bold : Bool := false
  italic : Bool := false
deriving DecidableEq, Repr

/-- `StructuredBlock` from `pdfTypes.ts`. -/
inductive StructuredBlock where
  | heading (level : ℕ) (text : String)
  | paragraph (spans : List RichTextSpan)
  | list (ordered : Bool) (items : List (List RichTextSpan))
  | quote (spans : List RichTextSpan)
deriving DecidableEq, Repr

/-! ## Inline span tokenization (`parseInlineSpans`)

The source scans with the regex
`(\*\*[^*]+\*\*|__[^_]+__|\*[^*]+\*|_[^_]+_|`[^`]+`)` (alternatives tried
in this order at each position, leftmost match wins) and keeps unmatched
text as plain spans; afterwards every span's text has its whitespace runs
collapsed to single spaces. -/

/-- The backtick character (code span delimiter). -/
def backquote : Char := Char.ofNat 96

/-- Try `mm[^m]+mm` at the head of `l`; on success return the span and the rest. -/
def tryDouble (m : Char) (asBold : Bool) (l : List Char) : Option (RichTextSpan × List Char) :=
  match l with
  | c1 :: c2 :: rest =>
    if c1 = m && c2 = m then
      let run := rest.takeWhile (fun c => c ≠ m)
      match rest.drop run.length with
      | d1 :: d2 :: rem =>
        if run ≠ [] && d1 = m && d2 = m then
          some (⟨String.mk run, asBold, !asBold⟩, rem)
        else none
      | _ => none
    else none
  | _ => none

/-- Try `m[^m]+m` at the head of `l`. -/
def trySingle (m : Char) (italicFlag : Bool) (l : List Char) : Option (RichTextSpan × List Char) :=
  match l with
  | c :: rest =>
    if c = m then
      let run := rest.takeWhile (fun x => x ≠ m)
      match rest.drop run.length with
      | d :: rem =>
        if run ≠ [] && d = m then
          some (⟨String.mk run, false, italicFlag⟩, rem)
        else none
      | [] => none
    else none
  | [] => none

/-- Try the five regex alternatives, in the source's order. -/
def tryEmph (l : List Char) : Option (RichTextSpan × List Char) :=
  (tryDouble '*' true l).orElse fun _ =>
  (tryDouble '_' true l).orElse fun _ =>
  (trySingle '*' true l).orElse fun _ =>
  (trySingle '_' true l).orElse fun _ =>
  trySingle backquote false l

/-- Prepend a pending plain-text run (if non-empty) to a span list. -/
def pushPlain (acc : List Char) (tail : List RichTextSpan) : List RichTextSpan :=
  if acc = [] then tail else ⟨String.mk acc, false, false⟩ :: tail

/-- The regex scan of `parseInlineSpans`, fuel-structural (`fuel ≥ l.length`
makes the fuel-0 case unreachable). -/
def inlineScan : ℕ → List Char → List Char → List RichTextSpan
  | 0, _, acc => pushPlain acc []
  | fuel + 1, l, acc =>
    match tryEmph l with
    | some (sp, rem) => pushPlain acc (sp :: inlineScan fuel rem [])
    | none =>
      match l with
      | [] => pushPlain acc []
      | c :: rest => inlineScan fuel rest (acc ++ [c])

/-- Collapse whitespace in a span's text (line 81 of the parser source). -/
def collapseSpan (sp : RichTextSpan) : RichTextSpan :=
  { sp with text := String.mk (collapseWs sp.text.data) }

/-- `parseInlineSpans` on a character list. -/
def parseInlineChars (l : List Char) : List RichTextSpan :=
  (inlineScan l.length l []).map collapseSpan

/-- `parseInlineSpans` from `markdownParser.ts`. -/
def parseInlineSpans (s : String) : List RichTextSpan :=
  parseInlineChars s.data

/-! ## Line matchers

Hand-rolled implementations of the three anchored regexes, with full
backtracking semantics.  They are only applied to single (newline-free)
lines, so `.` is treated as matching any character. -/

/-- `headingPattern = /^(#{1,3})\s*(.+)$/` (note `\s*`, not `\s+`).
Returns the captured level and the group-2 text. -/
def headingMatch (t : List Char) : Option (ℕ × List Char) :=
  let n := (t.takeWhile (fun c => c = '#')).length
  if n = 0 then none
  else
    let h0 := min n 3
    let rest := t.drop h0
    if rest = [] then
      -- t is 1–3 hashes; backtrack the hash counter so that (.+) is non-empty
      if 2 ≤ h0 then some (h0 - 1, t.drop (h0 - 1)) else none
    else
      let r := rest.dropWhile isJsSpace
      if r = [] then
        -- rest is non-empty whitespace: \s* backs off one char for (.+)
        some (h0, rest.drop (rest.length - 1))
      else some (h0, r)

/-- `bulletPattern = /^[*-+]\s+(.+)$/`.  The character class `[*-+]` is the
range from `*` (U+002A) to `+` (U+002B): it contains only `*` and `+`,
not the literal dash. -/
def bulletMatch (t : List Char) : Option (List Char) :=
  match t with
  | c :: rest =>
    if c = '*' || c = '+' then
      if rest.takeWhile isJsSpace = [] then none
      else
        let r := rest.dropWhile isJsSpace
        if r = [] then
          -- rest is all whitespace: \s+ backs off one char for (.+) if it can
          if 2 ≤ rest.length then some (rest.drop (rest.length - 1)) else none
        else some r
    else none
  | [] => none

/-- `blockquotePattern = /^>\s*(.+)$/`. -/
def quoteMatch (t : List Char) : Option (List Char) :=
  match t with
  | c :: rest =>
    if c = '>' then
      let r := rest.dropWhile isJsSpace
      if r = [] then
        if rest = [] then none else some (rest.drop (rest.length - 1))
      else some r
    else none
  | [] => none

/-! ## The block parser (`parseMarkdownToBlocks`) -/

/-- `flushParagraph`: join buffered lines with single spaces, normalize,
and emit one paragraph block if non-empty. -/
def flushPar (buf : List (List Char)) : List StructuredBlock :=
  if buf = [] then []
  else
    let t := normalizeWhitespace (List.intercalate [' '] buf)
    if t = [] then [] else [.paragraph (parseInlineChars t)]

/-- Is the (trimmed) line a bullet line?  Used for the list-consuming loop. -/
def isBulletLine (l : List Char) : Bool :=
  (bulletMatch (jsTrim l)).isSome

/-- The scanning loop of `parseMarkdownToBlocks`, fuel-structural
(`fuel ≥ lines.length` makes the fuel-0 case agree with exhaustion). -/
def parseLines : ℕ → List (List Char) → List (List Char) → List StructuredBlock
  | _, [], buf => flushPar buf
  | 0, _ :: _, buf => flushPar buf
  | fuel + 1, line :: rest, buf =>
    let t := jsTrim line
    if t = [] then flushPar buf ++ parseLines fuel rest []
    else
      match headingMatch t with
      | some (lvl, txt) =>
        flushPar buf ++ [.heading (min lvl 3) (String.mk (jsTrim txt))] ++ parseLines fuel rest []
      | none =>
        match bulletMatch t with
        | some _ =>
          -- the inner while loop re-tests the current line, then consumes
          -- every immediately following bullet line
          let bulletLines := line :: rest.takeWhile isBulletLine
          let items := bulletLines.filterMap fun l =>
            (bulletMatch (jsTrim l)).map fun cap => parseInlineChars (normalizeWhitespace cap)
          flushPar buf ++ [.list false items] ++ parseLines fuel (rest.dropWhile isBulletLine) []
        | none =>
          match quoteMatch t with
          | some cap =>
            flushPar buf ++ [.quote (parseInlineChars (normalizeWhitespace cap))] ++ parseLines fuel rest []
          | none => parseLines fuel rest (buf ++ [t])

/-- `parseMarkdownToBlocks` from `markdownParser.ts`. -/
def parseMarkdownToBlocks (rawText : String) : List StructuredBlock :=
  let lines := splitLinesAux (crlfToLf rawText.data) []
  parseLines lines.length lines []

/-! ## Chapter-title normalization and stripping (`pdfService.ts` 248–284) -/

/-- Case-insensitive literal-prefix match; returns the remainder on success. -/
def matchCI : List Char → List Char → Option (List Char)
  | [], l => some l
  | _ :: _, [] => none
  | p :: ps, c :: cs => if c.toLower = p then matchCI ps cs else none

/-- Match `/chapter\s+\d+[:\-]?/i` at the head of `l`; returns the match length. -/
def chapterRefLen (l : List Char) : Option ℕ :=
  match matchCI "chapter".data l with
  | none => none
  | some r1 =>
    let ws := r1.takeWhile isJsSpace
    if ws = [] then none
    else
      let r2 := r1.drop ws.length
      let ds := r2.takeWhile Char.isDigit
      if ds = [] then none
      else
        let r3 := r2.drop ds.length
        let opt : ℕ := match r3 with
          | c :: _ => if c = ':' || c = '-' then 1 else 0
          | [] => 0
        some ("chapter".length + ws.length + ds.length + opt)

/-- `value.replace(/chapter\s+\d+[:\-]?/i, '')`: remove the leftmost match. -/
def removeChapterRef : List Char → List Char
  | [] => []
  | c :: rest =>
    match chapterRefLen (c :: rest) with
    | some n => (c :: rest).drop n
    | none => c :: removeChapterRef rest

/-- Is `c` in `[a-zA-Z0-9]` (the complement of the class `[^a-z0-9]` with the
`i` flag)? -/
def isAlnumAscii (c : Char) : Bool :=
  ('a' ≤ c && c ≤ 'z') || ('A' ≤ c && c ≤ 'Z') || c.isDigit

/-- `value.replace(/[^a-z0-9]+/gi, ' ')`: each maximal non-alphanumeric run
becomes one space. -/
def collapseNonAlnum : List Char → List Char
  | [] => []
  | [c] => [if isAlnumAscii c then c else ' ']
  | c1 :: c2 :: rest =>
    if !isAlnumAscii c1 && !isAlnumAscii c2 then collapseNonAlnum (c2 :: rest)
    else (if isAlnumAscii c1 then c1 else ' ') :: collapseNonAlnum (c2 :: rest)

/-- `normalizeForComparison` from `pdfService.ts`. -/
def normalizeForComparison (value : String) : String :=
  String.mk ((jsTrim (collapseNonAlnum (removeChapterRef value.data))).map Char.toLower)

/-- `spansToPlainText` from `pdfService.ts`. -/
def spansToPlainText (spans : List RichTextSpan) : String :=
  String.mk (normalizeWhitespace (List.intercalate [' '] (spans.map (fun sp => sp.text.data))))

/-- The text compared against the normalized chapter title; `none` for block
kinds at which the stripping loop stops. -/
def stripCandidate : StructuredBlock → Option String
  | .heading _ text => some text
  | .paragraph spans => some (spansToPlainText spans)
  | _ => none

/-- The scanning loop of `stripLeadingChapterHeading`: drop leading blocks
whose normalized text equals the normalized title. -/
def stripLoop (nt : String) : List StructuredBlock → List StructuredBlock
  | [] => []
  | b :: rest =>
    match stripCandidate b with
    | some c => if normalizeForComparison c = nt then stripLoop nt rest else b :: rest
    | none => b :: rest

/-- `stripLeadingChapterHeading` from `pdfService.ts`. -/
def stripLeadingChapterHeading (blocks : List StructuredBlock) (chapterTitle : String) :
    List StructuredBlock :=
  let nt := normalizeForComparison chapterTitle
  if nt = "" then blocks else stripLoop nt blocks

/-! ## Claim C6: idempotence of title stripping -/

theorem stripLoop_fixedpoint (nt : String) (blocks : List StructuredBlock) :
    stripLoop nt (stripLoop nt blocks) = stripLoop nt blocks := by
  induction blocks with
  | nil => rfl
  | cons b rest ih =>
    simp only [stripLoop]
    cases hc : stripCandidate b with
    | none => simp [stripLoop, hc]
    | some c =>
      by_cases he : normalizeForComparison c = nt
      · simp only [he, if_pos rfl]
        exact ih
      · simp [stripLoop, hc, he]

/-- **C6**: chapter-title stripping is idempotent: for every block list and
chapter title, applying `stripLeadingChapterHeading` twice yields the same
result as applying it once. -/
theorem stripLeadingChapterHeading_idempotent (blocks : List StructuredBlock)
    (chapterTitle : String) :
    stripLeadingChapterHeading (stripLeadingChapterHeading blocks chapterTitle) chapterTitle =
      stripLeadingChapterHeading blocks chapterTitle := by
  unfold stripLeadingChapterHeading
  by_cases h : normalizeForComparison chapterTitle = ""
  · simp [h]
  · simp only [h, if_neg, if_false]
    exact stripLoop_fixedpoint _ blocks

/-! ## Claim C4: the dash bullet marker

The source's `bulletPattern` is `/^[*-+]\s+(.+)$/`.  Inside a character
class, `*-+` denotes the range U+002A–U+002B, i.e. only `*` and `+`; the
dash is not matched.  A `- item` line therefore falls through to the
paragraph buffer, contradicting both the spec and the evident intent. -/

/-- **C4** (code bug witness): the line `- item` is parsed as a paragraph,
not as a list block, while `* item` does start a list.  This contradicts
the claim that `-` is a recognized bullet marker. -/
theorem dashBullet_parsed_as_paragraph :
    parseMarkdownToBlocks "- item" = [.paragraph [⟨"- item", false, false⟩]] ∧
    parseMarkdownToBlocks "* item" = [.list false [[⟨"item", false, false⟩]]] ∧
    bulletMatch ("- item".data) = none := by
  refine ⟨by decide, by decide, by decide⟩

/-! ## Claim C5: heading recognition -/

/-- **C5** (counterexample): the line `#text` — hashes *not* followed by
whitespace — is parsed as a heading, not as paragraph text as the claim
states, because `headingPattern` uses `\s*`, not `\s+`. -/
theorem heading_without_space_cex :
    parseMarkdownToBlocks "#text" = [.heading 1 "text"] ∧
    parseMarkdownToBlocks "#text" ≠ [.paragraph [⟨"#text", false, false⟩]] := by
  refine ⟨by decide, by decide⟩

/-! ### Supporting lemmas on trimming and the heading matcher -/

theorem dropWhile_head_false {α : Type} (p : α → Bool) :
    ∀ (l : List α) (a : α) (as : List α), l.dropWhile p = a :: as → p a = false := by
  intro l
  induction l with
  | nil => intro a as h; simp [List.dropWhile] at h
  | cons c cs ih =>
    intro a as h
    by_cases hc : p c
    · rw [List.dropWhile_cons, if_pos hc] at h
      exact ih a as h
    · rw [List.dropWhile_cons, if_neg hc] at h
      cases h
      exact Bool.eq_false_iff.mpr hc

theorem mem_dropWhile_of_not {α : Type} (p : α → Bool) :
    ∀ (l : List α) (c : α), c ∈ l → p c = false → c ∈ l.dropWhile p := by
  intro l
  induction l with
  | nil => intro c h; simp at h
  | cons a as ih =>
    intro c hmem hc
    by_cases ha : p a
    · rw [List.dropWhile_cons, if_pos ha]
      rcases List.mem_cons.mp hmem with h | h
      · subst h; rw [ha] at hc; cases hc
      · exact ih c h hc
    · rw [List.dropWhile_cons, if_neg ha]
      exact hmem

theorem mem_jsTrim_of_not_space (l : List Char) (c : Char) (hmem : c ∈ l)
    (hc : isJsSpace c = false) : c ∈ jsTrim l := by
  unfold jsTrim
  apply List.mem_reverse.mpr
  apply mem_dropWhile_of_not _ _ _ _ hc
  apply List.mem_reverse.mpr
  exact mem_dropWhile_of_not _ _ _ hmem hc

theorem jsTrim_ne_nil_of_exists (l : List Char)
    (h : ∃ c ∈ l, isJsSpace c = false) : jsTrim l ≠ [] := by
  rcases h with ⟨c, hmem, hc⟩
  intro hnil
  have := mem_jsTrim_of_not_space l c hmem hc
  rw [hnil] at this
  simp at this

/-- The last character of a trimmed string is not whitespace. -/
theorem jsTrim_getLast_not_space (l : List Char) (c : Char)
    (h : (jsTrim l).getLast? = some c) : isJsSpace c = false := by
  unfold jsTrim at h
  rw [List.getLast?_reverse] at h
  rcases hB : ((l.dropWhile isJsSpace).reverse.dropWhile isJsSpace) with _ | ⟨a, as⟩
  · rw [hB] at h; cases h
  · rw [hB] at h
    simp only [List.head?_cons, Option.some.injEq] at h
    subst h
    exact dropWhile_head_false _ _ _ _ hB

/-- A non-empty trimmed string contains a non-whitespace character. -/
theorem jsTrim_has_nonspace (l : List Char) (h : jsTrim l ≠ []) :
    ∃ c ∈ jsTrim l, isJsSpace c = false := by
  rcases ht : jsTrim l with _ | ⟨a, as⟩
  · exact absurd ht h
  · have hlast : (jsTrim l).getLast? = some ((a :: as).getLast (by simp)) := by
      rw [ht]; exact List.getLast?_eq_getLast _ (by simp)
    exact ⟨(a :: as).getLast (by simp), List.getLast_mem _,
      jsTrim_getLast_not_space l _ hlast⟩

theorem mem_collapseWs_of_not_space :
    ∀ (l : List Char) (c : Char), c ∈ l → isJsSpace c = false → c ∈ collapseWs l := by
  intro l
  induction l with
  | nil => intro c h; simp at h
  | cons c1 rest ih =>
    intro c hmem hc
    cases rest with
    | nil =>
      simp only [List.mem_singleton] at hmem
      subst hmem
      simp [collapseWs, hc]
    | cons c2 rest2 =>
      simp only [collapseWs]
      by_cases hb : isJsSpace c1 && isJsSpace c2
      · rw [if_pos hb]
        rcases List.mem_cons.mp hmem with h | h
        · subst h
          rw [Bool.and_eq_true] at hb
          rw [hb.1] at hc; cases hc
        · exact ih c h hc
      · rw [if_neg hb]
        rcases List.mem_cons.mp hmem with h | h
        · subst h
          simp [hc]
        · exact List.mem_cons_of_mem _ (ih c h hc)

/-- Normalizing a non-empty trimmed line yields a non-empty result. -/
theorem normalizeWhitespace_jsTrim_ne_nil (l : List Char) (h : jsTrim l ≠ []) :
    normalizeWhitespace (jsTrim l) ≠ [] := by
  rcases jsTrim_has_nonspace l h with ⟨c, hmem, hc⟩
  unfold normalizeWhitespace
  exact jsTrim_ne_nil_of_exists _ ⟨c, mem_collapseWs_of_not_space _ c hmem hc, hc⟩

theorem length_takeWhile_le' {α : Type} (p : α → Bool) :
    ∀ l : List α, (l.takeWhile p).length ≤ l.length := by
  intro l
  induction l with
  | nil => simp
  | cons a as ih =>
    rw [List.takeWhile_cons]
    by_cases h : p a
    · simp only [if_pos h, List.length_cons]
      exact Nat.succ_le_succ ih
    · simp [if_neg h]

/-- `headingPattern` succeeds exactly on lines whose first character is `#`,
except the sole line `"#"` (whose `(.+)` group cannot be satisfied). -/
theorem headingMatch_isSome_iff (t : List Char) :
    (headingMatch t).isSome ↔ t.head? = some '#' ∧ t ≠ ['#'] := by
  cases t with
  | nil => simp [headingMatch]
  | cons c ts =>
    by_cases hc : c = '#'
    · subst hc
      have hn : ((('#' :: ts).takeWhile (fun c => c = '#')).length) =
          (ts.takeWhile (fun c => c = '#')).length + 1 := by
        rw [List.takeWhile_cons]
        simp
      constructor
      · intro hsome
        refine ⟨rfl, ?_⟩
        intro heq
        cases heq
        simp [headingMatch] at hsome
      · rintro ⟨-, hne⟩
        have hlen : 2 ≤ ('#' :: ts).length := by
          cases ts with
          | nil => exact absurd rfl hne
          | cons a as => simp
        unfold headingMatch
        rw [hn]
        simp only [Nat.add_eq_zero, Nat.succ_ne_zero, and_false, if_false]
        set n := (ts.takeWhile (fun c => c = '#')).length + 1 with hndef
        set h0 := min n 3 with hh0
        by_cases hrest : ('#' :: ts).drop h0 = []
        · have hle : ('#' :: ts).length ≤ h0 := List.drop_eq_nil_iff.mp hrest
          have h2 : 2 ≤ h0 := le_trans hlen hle
          simp [hrest, h2]
        · simp only [hrest, if_neg hrest]
          by_cases hr : (('#' :: ts).drop h0).dropWhile isJsSpace = []
          · simp [hr]
          · simp [hr]
    · have h0 : (c :: ts).takeWhile (fun x => x = '#') = [] := by
        rw [List.takeWhile_cons]
        simp [hc]
      constructor
      · intro hsome
        unfold headingMatch at hsome
        rw [h0] at hsome
        simp at hsome
      · rintro ⟨hhead, -⟩
        simp only [List.head?_cons, Option.some.injEq] at hhead
        exact absurd hhead hc

/-! ### Single-line parsing -/

theorem crlfToLf_of_no_newline : ∀ l : List Char, '\n' ∉ l → crlfToLf l = l := by
  intro l
  induction l with
  | nil => intro; rfl
  | cons c1 rest ih =>
    intro h
    cases rest with
    | nil => rfl
    | cons c2 rest2 =>
      have h2 : '\n' ∉ c2 :: rest2 := fun hm => h (List.mem_cons_of_mem _ hm)
      have hne : ¬(c1 = '\r' && c2 = '\n') = true := by
        intro hb
        rw [Bool.and_eq_true, decide_eq_true_iff, decide_eq_true_iff] at hb
        exact h2 (hb.2 ▸ List.mem_cons_self _ _)
      simp only [crlfToLf, if_neg hne]
      rw [ih h2]

theorem splitLinesAux_of_no_newline :
    ∀ (l acc : List Char), '\n' ∉ l → splitLinesAux l acc = [acc.reverse ++ l] := by
  intro l
  induction l with
  | nil => intro acc _; simp [splitLinesAux]
  | cons c rest ih =>
    intro acc h
    have hc : ¬(c = '\n') := fun hc => h (hc ▸ List.mem_cons_self _ _)
    have hrest : '\n' ∉ rest := fun hm => h (List.mem_cons_of_mem _ hm)
    simp only [splitLinesAux, if_neg (by simpa using hc)]
    rw [ih (c :: acc) hrest]
    simp

/-- For input without newlines, the parser processes a single line. -/
theorem parseMarkdownToBlocks_single_line (s : String) (hnl : '\n' ∉ s.data) :
    parseMarkdownToBlocks s = parseLines 1 [s.data] [] := by
  unfold parseMarkdownToBlocks
  rw [crlfToLf_of_no_newline _ hnl, splitLinesAux_of_no_newline _ [] hnl]
  rfl

/-- **C5** (amended): a heading block is emitted exactly for single lines
whose trimmed text matches `^#{1,3}\s*(.+)$` — that is, lines starting with
`#` other than the bare line `"#"`; whitespace after the hashes is
*optional*.  Every other non-blank line that is not a bullet or quote line
becomes paragraph text. -/
theorem heading_emitted_iff (s : String) (hnl : '\n' ∉ s.data)
    (hne : jsTrim s.data ≠ []) :
    ((∃ lvl txt, parseMarkdownToBlocks s = [.heading lvl txt]) ↔
      ((jsTrim s.data).head? = some '#' ∧ jsTrim s.data ≠ ['#'])) ∧
    ((jsTrim s.data).head? ≠ some '#' →
      bulletMatch (jsTrim s.data) = none →
      quoteMatch (jsTrim s.data) = none →
      parseMarkdownToBlocks s =
        [.paragraph (parseInlineChars (normalizeWhitespace (jsTrim s.data)))]) := by
  rw [parseMarkdownToBlocks_single_line s hnl]
  have hpar : flushPar [jsTrim s.data] =
      [.paragraph (parseInlineChars (normalizeWhitespace (jsTrim s.data)))] := by
    have hi : List.intercalate [' '] [jsTrim s.data] = jsTrim s.data := by
      simp [List.intercalate]
    simp only [flushPar, hi]
    rw [if_neg (show ¬([jsTrim s.data] = []) by simp),
      if_neg (normalizeWhitespace_jsTrim_ne_nil s.data hne)]
  constructor
  · constructor
    · rintro ⟨lvl, txt, hout⟩
      rw [← headingMatch_isSome_iff]
      simp only [parseLines, if_neg (by simpa using hne)] at hout
      rcases hh : headingMatch (jsTrim s.data) with _ | ⟨l0, t0⟩
      · exfalso
        rw [hh] at hout
        rcases hb : bulletMatch (jsTrim s.data) with _ | cap
        · rw [hb] at hout
          rcases hq : quoteMatch (jsTrim s.data) with _ | capq
          · rw [hq] at hout
            simp only [parseLines, List.nil_append] at hout
            rw [hpar] at hout
            simp at hout
          · rw [hq] at hout
            simp [flushPar, parseLines] at hout
        · rw [hb] at hout
          simp [flushPar, parseLines] at hout
      · rfl
    · intro hcond
      have hsome := (headingMatch_isSome_iff (jsTrim s.data)).mpr hcond
      rcases hh : headingMatch (jsTrim s.data) with _ | ⟨lvl, txt⟩
      · rw [hh] at hsome; cases hsome
      · refine ⟨min lvl 3, String.mk (jsTrim txt), ?_⟩
        simp only [parseLines, if_neg (by simpa using hne), hh]
        simp [flushPar, parseLines]
  · intro hnothash hbul hquo
    have hnone : headingMatch (jsTrim s.data) = none := by
      rcases hh : headingMatch (jsTrim s.data) with _ | v
      · rfl
      · exfalso
        have := (headingMatch_isSome_iff (jsTrim s.data)).mp (by rw [hh]; rfl)
        exact hnothash this.1
    simp only [parseLines, if_neg (by simpa using hne), hnone, hbul, hquo]
    simp only [List.nil_append, parseLines]
    exact hpar

/-- Witness for C5: the plain line `hello` (no hashes) becomes one
paragraph block, and `# T`-style recognition follows the iff. -/
theorem heading_emitted_iff_witness :
    parseMarkdownToBlocks "hello" = [.paragraph [⟨"hello", false, false⟩]] := by
  have h := (heading_emitted_iff "hello" (by decide) (by decide)).2
    (by decide) (by decide) (by decide)
  rw [h]
  decide

/-! ## The rich-text line breaker (`pdfService.ts` 128–186)

A `pdf-lib` font is modelled by its observable `widthOfTextAtSize` metric. -/

/-- The width metric of an embedded font: text and size to measured width. -/
def FontM : Type := String → ℚ → ℚ

/-- The three style variants resolved for the body text. -/
inductive FontVariant where
  | regular
  | bold
  | italic
deriving DecidableEq, Repr

/-- The `{ regular, bold, italic }` font record passed to the tokenizer. -/
structure FontSet where
  regular : FontM
  bold : FontM
  italic : FontM

/-- Pick the span's font: `span.bold ? bold : span.italic ? italic : regular`. -/
def spanVariant (sp : RichTextSpan) : FontVariant :=
  if sp.bold then .bold else if sp.italic then .italic else .regular

def variantFont (fonts : FontSet) : FontVariant → FontM
  | .regular => fonts.regular
  | .bold => fonts.bold
  | .italic => fonts.italic

/-- `StyledToken` from `pdfService.ts` (the font object is represented by
its variant tag; its metric lives in the ambient `FontSet`). -/
structure StyledToken where
  text : String
  font : FontVariant
  width : ℚ
  isSpace : Bool
deriving DecidableEq, Repr

theorem length_dropWhile_le' {α : Type} (p : α → Bool) :
    ∀ l : List α, (l.dropWhile p).length ≤ l.length := by
  intro l
  induction l with
  | nil => simp
  | cons a as ih =>
    rw [List.dropWhile_cons]
    by_cases h : p a
    · simp only [if_pos h]
      exact Nat.le_succ_of_le ih
    · simp [if_neg h]

/-- `text.split(/(\s+)/)` with empty parts removed: the maximal runs of
whitespace / non-whitespace characters, in order. -/
def tokenRuns : List Char → List (List Char)
  | [] => []
  | c :: rest =>
    ((c :: rest).takeWhile (fun x => isJsSpace x = isJsSpace c)) ::
      tokenRuns (rest.dropWhile (fun x => isJsSpace x = isJsSpace c))
termination_by l => l.length
decreasing_by
  simp only [List.length_cons]
  exact Nat.lt_succ_of_le (length_dropWhile_le' _ rest)

/-- `tokenizeSpans` from `pdfService.ts`: flatten spans into styled tokens;
a whitespace run is replaced by a single space and measured as such. -/
def tokenizeSpans (spans : List RichTextSpan) (fonts : FontSet) (fontSize : ℚ) :
    List StyledToken :=
  (spans.map fun span =>
    let v := spanVariant span
    (tokenRuns span.text.data).map fun part =>
      let isSp := !part.isEmpty && part.all isJsSpace
      let text := if isSp then " " else String.mk part
      ⟨text, v, variantFont fonts v text fontSize, isSp⟩).flatten

/-- The trailing-whitespace trim done by `pushLine` (the source decrements
`end` while the last token is whitespace and slices). -/
def trimTrailingSpaces : List StyledToken → List StyledToken
  | [] => []
  | t :: rest =>
    let r := trimTrailingSpaces rest
    if r.isEmpty && t.isSpace then [] else t :: r

/-- `pushLine` from `wrapTokens`: trim trailing spaces, push if non-empty. -/
def pushLine (lines : List (List StyledToken)) (current : List StyledToken) :
    List (List StyledToken) :=
  let trimmed := trimTrailingSpaces current
  if trimmed = [] then lines else lines ++ [trimmed]

/-- The token loop of `wrapTokens` with its accumulated state:
produced lines, current line, current line width. -/
def wrapGo (maxWidth : ℚ) :
    List StyledToken → List (List StyledToken) → List StyledToken → ℚ →
      List (List StyledToken)
  | [], lines, cur, _ => pushLine lines cur
  | t :: rest, lines, cur, w =>
    if t.isSpace = false ∧ maxWidth < w + t.width ∧ cur ≠ [] then
      wrapGo maxWidth rest (pushLine lines cur) [t] t.width
    else if t.isSpace = true ∧ cur = [] then
      wrapGo maxWidth rest lines cur w
    else
      wrapGo maxWidth rest lines (cur ++ [t]) (w + t.width)

/-- `wrapTokens` from `pdfService.ts`. -/
def wrapTokens (tokens : List StyledToken) (maxWidth : ℚ) :
    List (List StyledToken) :=
  wrapGo maxWidth tokens [] [] 0

/-! ## Claim C2: the greedy wrap invariant -/

/-- Total width of the tokens on a line. -/
def sumWidth (line : List StyledToken) : ℚ :=
  (line.map fun t => t.width).sum

/-- The per-line invariant claimed for `wrapTokens` output. -/
def GoodLine (maxWidth : ℚ) (line : List StyledToken) : Prop :=
  line ≠ [] ∧
  (∀ x, line.head? = some x → x.isSpace = false) ∧
  (∀ x, line.getLast? = some x → x.isSpace = false) ∧
  (sumWidth line ≤ maxWidth ∨ line.length = 1)

theorem trimTrailingSpaces_getLast :
    ∀ (l : List StyledToken) (x : StyledToken),
      (trimTrailingSpaces l).getLast? = some x → x.isSpace = false := by
  intro l
  induction l with
  | nil => intro x h; simp [trimTrailingSpaces] at h
  | cons t rest ih =>
    intro x h
    simp only [trimTrailingSpaces] at h
    by_cases hc : (trimTrailingSpaces rest).isEmpty && t.isSpace
    · rw [if_pos hc] at h; cases h
    · rw [if_neg hc] at h
      rcases hr : trimTrailingSpaces rest with _ | ⟨a, as⟩
      · rw [hr] at h
        simp only [List.getLast?_singleton, Option.some.injEq] at h
        subst h
        rw [hr] at hc
        simpa using hc
      · rw [hr] at h
        rw [List.getLast?_cons_cons] at h
        exact ih x (hr ▸ h)

theorem trimTrailingSpaces_head :
    ∀ (l : List StyledToken) (x : StyledToken),
      (trimTrailingSpaces l).head? = some x → l.head? = some x := by
  intro l
  induction l with
  | nil => intro x h; simp [trimTrailingSpaces] at h
  | cons t rest _ =>
    intro x h
    simp only [trimTrailingSpaces] at h
    by_cases hc : (trimTrailingSpaces rest).isEmpty && t.isSpace
    · rw [if_pos hc] at h; cases h
    · rw [if_neg hc] at h
      simp only [List.head?_cons, Option.some.injEq] at h ⊢
      exact h

theorem trimTrailingSpaces_append_space (l : List StyledToken) (t : StyledToken)
    (ht : t.isSpace = true) :
    trimTrailingSpaces (l ++ [t]) = trimTrailingSpaces l := by
  induction l with
  | nil => simp [trimTrailingSpaces, ht]
  | cons a l2 ih =>
    simp only [List.cons_append, trimTrailingSpaces, List.append_eq]
    rw [ih]

theorem trimTrailingSpaces_append_nonspace (l : List StyledToken) (t : StyledToken)
    (ht : t.isSpace = false) :
    trimTrailingSpaces (l ++ [t]) = l ++ [t] := by
  induction l with
  | nil => simp [trimTrailingSpaces, ht]
  | cons a l2 ih =>
    simp only [List.cons_append, trimTrailingSpaces, List.append_eq]
    rw [ih]
    have hne : ((l2 ++ [t] : List StyledToken)).isEmpty = false := by
      simp
    rw [hne]
    simp

theorem sumWidth_append (l : List StyledToken) (t : StyledToken) :
    sumWidth (l ++ [t]) = sumWidth l + t.width := by
  simp [sumWidth]

/-- Lines already pushed stay good; the pushed trim of an invariant-respecting
current line is good. -/
theorem pushLine_good (maxWidth : ℚ) (lines : List (List StyledToken))
    (cur : List StyledToken)
    (hlines : ∀ line ∈ lines, GoodLine maxWidth line)
    (hhead : ∀ x, cur.head? = some x → x.isSpace = false)
    (hsum : sumWidth (trimTrailingSpaces cur) ≤ maxWidth ∨
      (trimTrailingSpaces cur).length ≤ 1) :
    ∀ line ∈ pushLine lines cur, GoodLine maxWidth line := by
  intro line hmem
  unfold pushLine at hmem
  by_cases hc : trimTrailingSpaces cur = []
  · rw [if_pos hc] at hmem
    exact hlines line hmem
  · rw [if_neg hc] at hmem
    rcases List.mem_append.mp hmem with h | h
    · exact hlines line h
    · have hline : line = trimTrailingSpaces cur := by
        simpa using h
      subst hline
      refine ⟨hc, ?_, trimTrailingSpaces_getLast cur, ?_⟩
      · intro x hx
        exact hhead x (trimTrailingSpaces_head cur x hx)
      · rcases hsum with h1 | h1
        · exact Or.inl h1
        · right
          have hlen1 : 1 ≤ (trimTrailingSpaces cur).length := by
            rcases htr : trimTrailingSpaces cur with _ | ⟨a, as⟩
            · exact absurd htr hc
            · simp
          omega

/-- The inductive invariant of the `wrapTokens` loop. -/
theorem wrapGo_good (maxWidth : ℚ) :
    ∀ (tokens : List StyledToken) (lines : List (List StyledToken))
      (cur : List StyledToken) (w : ℚ),
      (∀ line ∈ lines, GoodLine maxWidth line) →
      w = sumWidth cur →
      (∀ x, cur.head? = some x → x.isSpace = false) →
      (sumWidth (trimTrailingSpaces cur) ≤ maxWidth ∨
        (trimTrailingSpaces cur).length ≤ 1) →
      ∀ line ∈ wrapGo maxWidth tokens lines cur w, GoodLine maxWidth line := by
  intro tokens
  induction tokens with
  | nil =>
    intro lines cur w hlines _ hhead hsum line hmem
    exact pushLine_good maxWidth lines cur hlines hhead hsum line hmem
  | cons t rest ih =>
    intro lines cur w hlines hw hhead hsum line hmem
    rw [wrapGo] at hmem
    by_cases h1 : t.isSpace = false ∧ maxWidth < w + t.width ∧ cur ≠ []
    · rw [if_pos h1] at hmem
      refine ih (pushLine lines cur) [t] t.width
        (pushLine_good maxWidth lines cur hlines hhead hsum) ?_ ?_ ?_ line hmem
      · simp [sumWidth]
      · intro x hx
        simp only [List.head?_cons, Option.some.injEq] at hx
        exact hx ▸ h1.1
      · right
        have : trimTrailingSpaces [t] = [t] := by
          simp [trimTrailingSpaces, h1.1]
        rw [this]
        simp
    · rw [if_neg h1] at hmem
      by_cases h2 : t.isSpace = true ∧ cur = []
      · rw [if_pos h2] at hmem
        exact ih lines cur w hlines hw hhead hsum line hmem
      · rw [if_neg h2] at hmem
        refine ih lines (cur ++ [t]) (w + t.width) hlines ?_ ?_ ?_ line hmem
        · rw [hw, sumWidth_append]
        · intro x hx
          cases cur with
          | nil =>
            simp only [List.nil_append, List.head?_cons, Option.some.injEq] at hx
            have hsp : t.isSpace = false := by
              by_cases hs : t.isSpace = true
              · exact absurd ⟨hs, rfl⟩ h2
              · simpa using hs
            exact hx ▸ hsp
          | cons a as =>
            simp only [List.cons_append, List.head?_cons, Option.some.injEq] at hx
            exact hhead x (by simp [hx])
        · by_cases hsp : t.isSpace = true
          · rw [trimTrailingSpaces_append_space cur t hsp]
            exact hsum
          · have hspf : t.isSpace = false := by simpa using hsp
            rw [trimTrailingSpaces_append_nonspace cur t hspf]
            cases hcur : cur with
            | nil =>
              right; simp
            | cons a as =>
              left
              have hle : ¬maxWidth < w + t.width := by
                intro hlt
                exact h1 ⟨hspf, hlt, by simp [hcur]⟩
              rw [hcur] at hw
              rw [sumWidth_append, ← hw]
              exact le_of_not_lt hle

/-- **C2**: every line produced by `wrapTokens` is non-empty, neither starts
nor ends with a whitespace token, and the sum of its token widths is at most
`maxWidth` unless the line consists of a single (permitted oversized)
token. -/
theorem wrapTokens_line_invariant (tokens : List StyledToken) (maxWidth : ℚ)
    (hpos : 0 < maxWidth) (line : List StyledToken)
    (hmem : line ∈ wrapTokens tokens maxWidth) :
    line ≠ [] ∧
    (∀ x, line.head? = some x → x.isSpace = false) ∧
    (∀ x, line.getLast? = some x → x.isSpace = false) ∧
    (sumWidth line ≤ maxWidth ∨ line.length = 1) := by
  have := wrapGo_good maxWidth tokens [] [] 0
    (by intro l h; simp at h) (by simp [sumWidth]) (by intro x h; simp at h)
    (by right; simp [trimTrailingSpaces]) line hmem
  exact this

/-- A concrete token list for the C2 witness. -/
def c2Tokens : List StyledToken :=
  [⟨"ab", .regular, 5, false⟩, ⟨" ", .regular, 1, true⟩, ⟨"cd", .regular, 4, false⟩]

/-- The first produced line of `wrapTokens c2Tokens 6`. -/
def c2Line : List StyledToken := [⟨"ab", .regular, 5, false⟩]

/-- Witness for C2 at a concrete token list and width. -/
theorem wrapTokens_line_invariant_witness :
    0 < (6 : ℚ) ∧ c2Line ∈ wrapTokens c2Tokens 6 ∧
    (c2Line ≠ [] ∧
      (∀ x, c2Line.head? = some x → x.isSpace = false) ∧
      (∀ x, c2Line.getLast? = some x → x.isSpace = false) ∧
      (sumWidth c2Line ≤ 6 ∨ c2Line.length = 1)) :=
  have hmem : c2Line ∈ wrapTokens c2Tokens 6 := by
    rw [show wrapTokens c2Tokens 6 = [c2Line, [⟨"cd", .regular, 4, false⟩]] by with_unfolding_all decide]
    exact List.mem_cons_self _ _
  ⟨by norm_num, hmem, wrapTokens_line_invariant c2Tokens 6 (by norm_num) c2Line hmem⟩

/-! ## Book, image and configuration data model (`types/book.ts`) -/

/-- `BookConfig` (fields that reach the layout engine). -/
structure BookConfig where
  title : String
  topic : String
  genre : String
  targetAudience : String
  language : String
  tone : String
  chaptersCount : ℚ
  wordsPerChapter : ℚ
  dedication : Option String := none
deriving DecidableEq, Repr

/-- `ChapterContent` from `types/book.ts`. -/
structure ChapterContent where
  index : ℤ
  title : String
  text : String
deriving DecidableEq, Repr

/-- `GeneratedBook` (the `outline` field is never consulted by
`buildBookPdf`, so it is not modelled). -/
structure GeneratedBook where
  config : BookConfig
  chapters : List ChapterContent
deriving DecidableEq, Repr

/-- `ChapterImageAnchor = 'start' | 'middle' | 'end'` (`end` is a Lean
keyword, rendered `ending`). -/
inductive ChapterImageAnchor where
  | start
  | middle
  | ending
deriving DecidableEq, Repr

inductive CoverSlot where
  | background
  | badge
deriving DecidableEq, Repr

/-- `ImagePlacement` from `types/book.ts`. -/
inductive ImagePlacement where
  | gallery
  | cover (coverSlot : CoverSlot)
  | chapter (chapterIndex : ℤ) (anchor : Option ChapterImageAnchor)
deriving DecidableEq, Repr

/-- `UserImageAsset` from `types/book.ts` (`include` is a Lean keyword,
rendered `includeFlag`). -/
structure UserImageAsset where
  id : String
  name : String
  dataUrl : String
  size : ℚ
  type : String
  includeFlag : Bool
  caption : Option String := none
  createdAt : ℚ := 0
  placement : Option ImagePlacement := none
deriving DecidableEq, Repr

inductive PageSizeKind where
  | A4
  | Letter
deriving DecidableEq, Repr

structure PdfMargins where
  top : ℚ
  bottom : ℚ
  left : ℚ
  right : ℚ
deriving DecidableEq, Repr

inductive PdfFontFamily where
  | TimesRoman
  | Helvetica
  | Courier
deriving DecidableEq, Repr

structure PdfFontConfig where
  family : PdfFontFamily
  size : ℚ
  bold : Bool := false
deriving DecidableEq, Repr

structure PdfFontsConfig where
  title : PdfFontConfig
  heading : PdfFontConfig
  body : PdfFontConfig
deriving DecidableEq, Repr

inductive PdfStylePreset where
  | aurora
  | editorial
  | midnight
deriving DecidableEq, Repr

/-- The resolved `PdfConfig` (the merge with `DEFAULT_PDF_CONFIG` happens
before the layout engine proper and always yields a full record). -/
structure PdfConfig where
  pageSize : PageSizeKind
  margins : PdfMargins
  pageNumbering : Bool
  fonts : PdfFontsConfig
  stylePreset : PdfStylePreset
deriving DecidableEq, Repr

/-- The two spacing multipliers of each theme (`pdfThemes.ts`); the colors
only feed drawing parameters that the event trace does not record. -/
structure ThemeNumbers where
  lineHeightMultiplier : ℚ
  paragraphSpacingMultiplier : ℚ
deriving DecidableEq, Repr

/-- `getThemeDefinition`, restricted to its numeric payload. -/
def getThemeNumbers : PdfStylePreset → ThemeNumbers
  | .aurora => ⟨1.35, 0.55⟩
  | .editorial => ⟨1.32, 0.5⟩
  | .midnight => ⟨1.4, 0.6⟩

/-- `PageSizes` from `pdf-lib`: `A4 = [595.28, 841.89]`,
`Letter = [612, 792]`. -/
def pageSizeDims : PageSizeKind → ℚ × ℚ
  | .A4 => (595.28, 841.89)
  | .Letter => (612, 792)

/-! ## Image embedding (C9) -/

/-- Which `pdf-lib` embedder is used. -/
inductive EmbedKind where
  | png
  | jpg
deriving DecidableEq, Repr

/-- `embedUserImage` from `pdfService.ts`: PNG embedder exactly for the MIME
type `image/png`, JPEG embedder for everything else. -/
def embedUserImage (asset : UserImageAsset) : EmbedKind :=
  if asset.type = "image/png" then .png else .jpg

/-- **C9**: the PNG embedder is used iff the asset's MIME type is exactly
`image/png`; every other MIME type (including `image/webp`) goes to the
JPEG embedder. -/
theorem embedUserImage_png_iff (asset : UserImageAsset) :
    (embedUserImage asset = .png ↔ asset.type = "image/png") ∧
    (asset.type ≠ "image/png" → embedUserImage asset = .jpg) := by
  constructor
  · constructor
    · intro h
      unfold embedUserImage at h
      by_cases hc : asset.type = "image/png"
      · exact hc
      · rw [if_neg hc] at h; cases h
    · intro h
      unfold embedUserImage
      rw [if_pos h]
  · intro h
    unfold embedUserImage
    rw [if_neg h]

/-- Witness for C9: a webp asset goes to the JPEG embedder. -/
theorem embedUserImage_png_iff_witness :
    embedUserImage ⟨"img1", "pic", "data:", 10, "image/webp", true, none, 0, none⟩ =
      .jpg :=
  (embedUserImage_png_iff ⟨"img1", "pic", "data:", 10, "image/webp", true, none, 0, none⟩).2
    (by decide)

/-! ## The build environment

`pdf-lib` font objects are modelled by their width metric and decoded
images by a dimension oracle (width, height) keyed by asset id. -/

structure Env where
  config : PdfConfig
  fontWidth : PdfFontFamily → FontVariant → FontM
  dims : String → ℚ × ℚ

/-- `resolveFont`: bold variant if the config requests bold, else regular. -/
def resolveFont (env : Env) (cf : PdfFontConfig) : FontM :=
  env.fontWidth cf.family (if cf.bold then .bold else .regular)

def titleFont (env : Env) : FontM := resolveFont env env.config.fonts.title
def headingFont (env : Env) : FontM := resolveFont env env.config.fonts.heading
def bodyFont (env : Env) : FontM := resolveFont env env.config.fonts.body
def bodyBoldFont (env : Env) : FontM := env.fontWidth env.config.fonts.body.family .bold
def bodyItalicFont (env : Env) : FontM := env.fontWidth env.config.fonts.body.family .italic

/-- The `{ regular, bold, italic }` body-text font set. -/
def textFonts (env : Env) : FontSet :=
  ⟨bodyFont env, bodyBoldFont env, bodyItalicFont env⟩

def pageWidth (env : Env) : ℚ := (pageSizeDims env.config.pageSize).1
def pageHeight (env : Env) : ℚ := (pageSizeDims env.config.pageSize).2
def originX (env : Env) : ℚ := env.config.margins.left
def contentWidth (env : Env) : ℚ :=
  pageWidth env - env.config.margins.left - env.config.margins.right
def lineHeight (env : Env) : ℚ :=
  env.config.fonts.body.size * (getThemeNumbers env.config.stylePreset).lineHeightMultiplier
def paragraphSpacing (env : Env) : ℚ :=
  env.config.fonts.body.size * (getThemeNumbers env.config.stylePreset).paragraphSpacingMultiplier

/-! ## Plain text wrapping (`wrapText`, `pdfService.ts` 67–89) -/

/-- The word loop of `wrapText`: greedy one-font wrapping, splitting on
single spaces. -/
def wrapWords (font : FontM) (fontSize maxWidth : ℚ) :
    List String → String → List String
  | [], cur => [cur]
  | word :: rest, cur =>
    let testLine := if cur.length > 0 then cur ++ " " ++ word else word
    if maxWidth < font testLine fontSize then
      (if cur.length > 0 then [cur] else []) ++ wrapWords font fontSize maxWidth rest word
    else
      wrapWords font fontSize maxWidth rest testLine

/-- `wrapText` from `pdfService.ts`: per input line, blank lines are kept as
empty output lines, other lines are word-wrapped. -/
def wrapText (text : String) (font : FontM) (fontSize maxWidth : ℚ) : List String :=
  ((text.splitOn "\n").map fun paragraph =>
    if jsTrimS paragraph = "" then [""]
    else wrapWords font fontSize maxWidth (paragraph.splitOn " ") "").flatten

/-! ## Page metadata and the event trace -/

inductive PageRole where
  | cover
  | gallery
  | toc
  | chapter
deriving DecidableEq, Repr

/-- `PageMeta` from `pdfService.ts` (the `page` handle is the position in
the page list). -/
structure PageMeta where
  role : PageRole
  chapterTitle : Option String := none
deriving DecidableEq, Repr

/-- `TocEntry` from `pdfService.ts`. -/
structure TocEntry where
  title : String
  pageNumber : ℕ
deriving DecidableEq, Repr

/-- One recorded drawing-side effect, in emission order.  `pageCreated`
corresponds to `addContentPage`/`addPage`, `rect` to `drawRectangle`,
`text` to `drawText`, `image` to `drawImage`, `embedReq` to a call of
`getEmbeddedImageForAsset`, and `footer` to the footer label+number pair
stamped by the deferred numbering pass. -/
inductive Ev where
  | pageCreated (meta : PageMeta)
  | rect
  | text (s : String)
  | image (assetId : String)
  | embedReq (assetId : String)
  | footer (label : String) (n : ℕ)
deriving DecidableEq, Repr

/-- Accumulated global build state: registered page metadata (creation
order), table-of-contents entries, and the event trace. -/
structure BuildState where
  pages : List PageMeta
  tocEntries : List TocEntry
  events : List Ev
deriving DecidableEq, Repr

/-- `coverPageCount` from `pdfService.ts` (the cover is excluded from
numbering). -/
def coverPageCount : ℕ := 1

/-! ## Image placement partitioning (`pdfService.ts` 358–368) -/

/-- `options.images?.filter(image => image.include)`. -/
def includedOf (images : List UserImageAsset) : List UserImageAsset :=
  images.filter fun i => i.includeFlag

/-- Gallery bucket: no placement or explicit gallery placement. -/
def isGalleryImage (i : UserImageAsset) : Bool :=
  match i.placement with
  | none => true
  | some .gallery => true
  | _ => false

/-- Cover bucket. -/
def isCoverImage (i : UserImageAsset) : Bool :=
  match i.placement with
  | some (.cover _) => true
  | _ => false

/-- `chapterImageMap.get(idx)`: the included images placed on chapter
`idx`, in list order (the map is built by pushing in iteration order). -/
def chapterImagesFor (included : List UserImageAsset) (idx : ℤ) :
    List UserImageAsset :=
  included.filter fun i =>
    match i.placement with
    | some (.chapter j _) => j = idx
    | _ => false

/-- `resolveAnchor` from `buildBookPdf`: default `start`. -/
def resolveAnchor (asset : UserImageAsset) : ChapterImageAnchor :=
  match asset.placement with
  | some (.chapter _ a) => a.getD .start
  | _ => .start

/-- `coverImages.find(...)` for a given cover slot. -/
def coverSlotAsset (coverImages : List UserImageAsset) (slot : CoverSlot) :
    Option UserImageAsset :=
  coverImages.find? fun i =>
    match i.placement with
    | some (.cover s) => s = slot
    | _ => false

/-! ## Chapter rendering (`pdfService.ts` 590–808)

The per-chapter state: pages created by this chapter (appended to the
global list by `registerPage`), the vertical cursor `y`, and the events
emitted by this chapter. -/

structure CS where
  newPages : List PageMeta
  y : ℚ
  events : List Ev
deriving DecidableEq, Repr

/-- Continuation pages restart the cursor here (line 683). -/
def continuationStartY (env : Env) : ℚ :=
  pageHeight env - env.config.margins.top - 32

/-- `chapterPageFactory`: new chapter page with chrome; on the first page
also the centred chapter title and decorative rule.  Returns the new state
and `bodyStartY`. -/
def chapterPageFactory (env : Env) (chIndex : ℤ) (chTitle : String)
    (isFirstPage : Bool) (cs : CS) : CS × ℚ :=
  let meta : PageMeta := ⟨.chapter, some chTitle⟩
  let label := ("Chapter " ++ toString chIndex).toUpper
  let evs := cs.events ++ [.pageCreated meta, .rect, .rect, .text label]
  if isFirstPage then
    let chapterHeadingSize := env.config.fonts.heading.size * 1.05
    let titleLines := wrapText chTitle (headingFont env) chapterHeadingSize
      (contentWidth env * 0.9)
    let titleYFinal := pageHeight env - env.config.margins.top - 32 -
      (titleLines.length : ℚ) * (chapterHeadingSize * 1.2)
    let bodyStartY := titleYFinal - 28
    (⟨cs.newPages ++ [meta], cs.y, evs ++ titleLines.map Ev.text ++ [.rect]⟩,
      bodyStartY - 24)
  else
    (⟨cs.newPages ++ [meta], cs.y, evs⟩, pageHeight env - env.config.margins.top - 24)

/-- `ensureSpace`: page transition when not enough vertical room remains;
continuation pages restart at `continuationStartY`. -/
def ensureSpace (env : Env) (chIndex : ℤ) (chTitle : String) (needed : ℚ)
    (cs : CS) : CS :=
  if cs.y - needed < env.config.margins.bottom then
    let next := chapterPageFactory env chIndex chTitle false cs
    { next.1 with y := continuationStartY env }
  else cs

/-- `drawChapterImage`: embed (cached by id — modelled as an `embedReq`
event), scale to fit, reserve space, draw, then the optional caption. -/
def drawChapterImage (env : Env) (chIndex : ℤ) (chTitle : String)
    (asset : UserImageAsset) (cs : CS) : CS :=
  let cs0 : CS := { cs with events := cs.events ++ [.embedReq asset.id] }
  let wh := env.dims asset.id
  let maxHeight := pageHeight env * 0.35
  let scale := min 1 (min (contentWidth env / wh.1) (maxHeight / wh.2))
  let drawHeight := wh.2 * scale
  let cs1 := ensureSpace env chIndex chTitle (drawHeight + 40) cs0
  let cs2 : CS := { cs1 with
    events := cs1.events ++ [.image asset.id]
    y := cs1.y - (drawHeight + 16) }
  let cs3 : CS :=
    match asset.caption with
    | some cap =>
      if jsTrimS cap ≠ "" then
        { cs2 with
          events := cs2.events ++ [.text (jsTrimS cap)]
          y := cs2.y - lineHeight env }
      else cs2
    | none => cs2
  { cs3 with y := cs3.y - paragraphSpacing env / 2 }

/-- `drawImages`: draw a list of chapter images in order. -/
def drawImagesM (env : Env) (chIndex : ℤ) (chTitle : String)
    (images : List UserImageAsset) (cs : CS) : CS :=
  images.foldl (fun s a => drawChapterImage env chIndex chTitle a s) cs

/-- `drawRichLine`: one `drawText` per token. -/
def drawRichLine (lineTokens : List StyledToken) (evs : List Ev) : List Ev :=
  evs ++ lineTokens.map fun t => Ev.text t.text

/-- `ParagraphOptions` (the `beforeFirstLine` callback is only ever used to
draw the list bullet glyph, modelled by `bulletGlyph`; `color` feeds only
drawing parameters). -/
structure ParagraphOptions where
  indent : Option ℚ := none
  spacingBottom : Option ℚ := none
  bulletGlyph : Option String := none

/-- The per-line loop of `drawRichParagraph`. -/
def drawParagraphLines (env : Env) (chIndex : ℤ) (chTitle : String)
    (lh : ℚ) (bullet : Option String) :
    List (List StyledToken) → Bool → CS → CS
  | [], _, cs => cs
  | line :: rest, isFirst, cs =>
    let cs1 := ensureSpace env chIndex chTitle lh cs
    let cs2 : CS :=
      if isFirst then
        match bullet with
        | some g => { cs1 with events := cs1.events ++ [.text g] }
        | none => cs1
      else cs1
    let cs3 : CS := { cs2 with events := drawRichLine line cs2.events, y := cs2.y - lh }
    drawParagraphLines env chIndex chTitle lh bullet rest false cs3

/-- `drawRichParagraph` from `pdfService.ts`. -/
def drawRichParagraph (env : Env) (chIndex : ℤ) (chTitle : String)
    (spans : List RichTextSpan) (fonts : FontSet) (contentW fontSize lh ps : ℚ)
    (options : ParagraphOptions) (cs : CS) : CS :=
  if spans = [] then cs
  else
    let indent := options.indent.getD 0
    let tokens := tokenizeSpans spans fonts fontSize
    let lines := wrapTokens tokens (max 20 (contentW - indent))
    if lines = [] then cs
    else
      let spacingBottom := options.spacingBottom.getD ps
      let cs1 := drawParagraphLines env chIndex chTitle lh options.bulletGlyph lines true cs
      { cs1 with y := cs1.y - spacingBottom }

/-- One iteration of the block `switch` in the chapter loop. -/
def renderBlock (env : Env) (chIndex : ℤ) (chTitle : String) (cs : CS)
    (block : StructuredBlock) : CS :=
  match block with
  | .heading level text =>
    let headingSize :=
      if level ≤ 2 then env.config.fonts.heading.size
      else env.config.fonts.heading.size * 0.9
    let cs1 := ensureSpace env chIndex chTitle (headingSize * 2) cs
    { cs1 with
      events := cs1.events ++ [.text text]
      y := cs1.y - headingSize * 1.3 - paragraphSpacing env / 2 }
  | .list _ items =>
    items.foldl (fun s item =>
      drawRichParagraph env chIndex chTitle item (textFonts env) (contentWidth env)
        env.config.fonts.body.size (lineHeight env) (paragraphSpacing env)
        ⟨some 18, some (paragraphSpacing env / 2), some "•"⟩ s) cs
  | .quote spans =>
    drawRichParagraph env chIndex chTitle spans (textFonts env) (contentWidth env - 20)
      env.config.fonts.body.size (lineHeight env) (paragraphSpacing env)
      ⟨some 0, some (paragraphSpacing env / 2), none⟩ cs
  | .paragraph spans =>
    drawRichParagraph env chIndex chTitle spans (textFonts env) (contentWidth env)
      env.config.fonts.body.size (lineHeight env) (paragraphSpacing env) ⟨none, none, none⟩ cs

/-- `middleTrigger = Math.max(1, Math.floor(totalBlocks / 2))`. -/
def middleTriggerOf (totalBlocks : ℕ) : ℕ :=
  max 1 (totalBlocks / 2)

/-- The chapter block loop with the `middleInserted` flag: after each block,
once `blockIndex + 1` reaches the trigger, the middle images are drawn
exactly once. -/
def blockLoopF (env : Env) (chIndex : ℤ) (chTitle : String)
    (middleImages : List UserImageAsset) (middleTrigger : ℕ) :
    List StructuredBlock → ℕ → Bool → CS → CS × Bool
  | [], _, inserted, cs => (cs, inserted)
  | b :: rest, blockIndex, inserted, cs =>
    let cs1 := renderBlock env chIndex chTitle cs b
    if inserted = false ∧ middleTrigger ≤ blockIndex + 1 then
      blockLoopF env chIndex chTitle middleImages middleTrigger rest
        (blockIndex + 1) true (drawImagesM env chIndex chTitle middleImages cs1)
    else
      blockLoopF env chIndex chTitle middleImages middleTrigger rest
        (blockIndex + 1) inserted cs1

/-- The chapter body: start images, then the block loop with middle
insertion, the zero-block middle fallback, then end images. -/
def chapterFlow (env : Env) (chIndex : ℤ) (chTitle : String)
    (blocks : List StructuredBlock) (startI middleI endI : List UserImageAsset)
    (cs : CS) : CS :=
  let cs1 := drawImagesM env chIndex chTitle startI cs
  let r := blockLoopF env chIndex chTitle middleI (middleTriggerOf blocks.length)
    blocks 0 false cs1
  let cs3 := if r.2 then r.1 else drawImagesM env chIndex chTitle middleI r.1
  drawImagesM env chIndex chTitle endI cs3

/-- Everything a rendered chapter contributes: first page with title
treatment, then the image/block flow. -/
def renderChapterCore (env : Env) (chIndex : ℤ) (chTitle : String)
    (parsedBlocks : List StructuredBlock) (assigned : List UserImageAsset) : CS :=
  let first := chapterPageFactory env chIndex chTitle true ⟨[], 0, []⟩
  let cs : CS := { first.1 with y := first.2 }
  let startI := assigned.filter fun a => resolveAnchor a = .start
  let middleI := assigned.filter fun a => resolveAnchor a = .middle
  let endI := assigned.filter fun a => resolveAnchor a = .ending
  chapterFlow env chIndex chTitle parsedBlocks startI middleI endI cs

/-- One iteration of the chapter loop of `buildBookPdf`: skip conditions,
first-page creation, TOC entry recording
(`Math.max(1, pageMeta.length - coverPageCount)` computed right after the
first page is registered), then body rendering. -/
def renderChapter (env : Env) (included : List UserImageAsset)
    (st : BuildState) (ch : ChapterContent) : BuildState :=
  let assigned := chapterImagesFor included ch.index
  if jsTrimS ch.text = "" ∧ assigned = [] then st
  else
    let parsedBlocks := stripLeadingChapterHeading (parseMarkdownToBlocks ch.text) ch.title
    if parsedBlocks = [] ∧ assigned = [] then st
    else
      let core := renderChapterCore env ch.index ch.title parsedBlocks assigned
      let tocTitle := "Chapter " ++ toString ch.index ++ ": " ++ ch.title
      let chapterPageNumber := max 1 (st.pages.length + 1 - coverPageCount)
      { pages := st.pages ++ core.newPages,
        tocEntries := st.tocEntries ++ [⟨tocTitle, chapterPageNumber⟩],
        events := st.events ++ core.events }

/-! ## Cover page (`pdfService.ts` 386–463) -/

/-- The cover page: background, optional background image, wrapped title
lines, subtitle, optional dedication, footer note, optional badge. -/
def renderCover (env : Env) (book : GeneratedBook)
    (coverImages : List UserImageAsset) : BuildState :=
  let meta : PageMeta := ⟨.cover, none⟩
  let evs0 := [Ev.pageCreated meta, Ev.rect]
  let evs1 :=
    match coverSlotAsset coverImages .background with
    | some asset => evs0 ++ [.embedReq asset.id, .image asset.id]
    | none => evs0
  let titleLines := wrapText book.config.title (titleFont env)
    env.config.fonts.title.size (contentWidth env * 0.9)
  let evs2 := evs1 ++ titleLines.map Ev.text
  let evs3 := evs2 ++ [.text (book.config.genre ++ " • " ++ book.config.topic)]
  let evs4 :=
    match book.config.dedication with
    | some d => if jsTrimS d ≠ "" then evs3 ++ [.text ("For " ++ jsTrimS d)] else evs3
    | none => evs3
  let evs5 := evs4 ++ [.text "Crafted with BookForge AI"]
  let evs6 :=
    match coverSlotAsset coverImages .badge with
    | some asset => evs5 ++ [.embedReq asset.id, .image asset.id]
    | none => evs5
  ⟨[meta], [], evs6⟩

/-! ## Table-of-contents placeholder pages and deferred fill
(`pdfService.ts` 465–526) -/

/-- `tocPageCount`: estimate of reserved placeholder pages (minimum 1 page,
minimum 1 entry per page). -/
def tocPageCountOf (env : Env) (numChapters : ℕ) : ℕ :=
  let avail := pageHeight env - env.config.margins.top - env.config.margins.bottom -
    env.config.fonts.heading.size * 1.5
  let epp : ℤ := max 1 (Rat.floor (avail / lineHeight env))
  (max 1 (Rat.ceil ((numChapters : ℚ) / (epp : ℚ)))).toNat

/-- First free row position on a fresh TOC page. -/
def tocHeaderNextY (env : Env) : ℚ :=
  pageHeight env - env.config.margins.top - env.config.fonts.heading.size * 1.8

/-- Reserve `count` TOC placeholder pages, each with header and rule. -/
def addTocPages (env : Env) : ℕ → BuildState → BuildState
  | 0, st => st
  | n + 1, st =>
    addTocPages env n
      { st with
        pages := st.pages ++ [⟨.toc, none⟩]
        events := st.events ++
          [.pageCreated ⟨.toc, none⟩, .rect, .text "Table of Contents", .rect] }

/-- The entry walk of `renderTableOfContents`: draw title and page number
on the current placeholder page, advancing pages as rows run out, stopping
when the placeholder pages are exhausted. -/
def tocFillGo (env : Env) : List TocEntry → ℚ → ℕ → List Ev
  | [], _, _ => []
  | e :: rest, curY, remaining =>
    if curY < env.config.margins.bottom + lineHeight env then
      match remaining with
      | 0 => []
      | n + 1 =>
        [Ev.text e.title, Ev.text (toString e.pageNumber)] ++
          tocFillGo env rest (tocHeaderNextY env - lineHeight env) n
    else
      [Ev.text e.title, Ev.text (toString e.pageNumber)] ++
        tocFillGo env rest (curY - lineHeight env) remaining

/-- `renderTableOfContents` (pass 2). -/
def renderTableOfContents (env : Env) (tocPageCnt : ℕ) (entries : List TocEntry) :
    List Ev :=
  if tocPageCnt = 0 ∨ entries = [] then []
  else tocFillGo env entries (tocHeaderNextY env) (tocPageCnt - 1)

/-! ## Gallery (`pdfService.ts` 528–588) -/

/-- `asset.caption?.trim() || asset.name || 'Uploaded image'`. -/
def galleryCaption (asset : UserImageAsset) : String :=
  let cap := (asset.caption.map jsTrimS).getD ""
  if cap ≠ "" then cap else if asset.name ≠ "" then asset.name else "Uploaded image"

/-- One gallery-loop iteration; the accumulator is the build state, the
vertical cursor, and the current row's maximal image height. -/
def galleryStep (env : Env) (total : ℕ) (acc : BuildState × ℚ × ℚ)
    (p : ℕ × UserImageAsset) : BuildState × ℚ × ℚ :=
  let st := acc.1
  let galleryY := acc.2.1
  let rowMaxHeight := acc.2.2
  let index := p.1
  let asset := p.2
  let st0 : BuildState := { st with events := st.events ++ [.embedReq asset.id] }
  let wh := env.dims asset.id
  let cardWidth := (contentWidth env - 18) / 2
  let maxImageHeight := pageHeight env * 0.35
  let scale := min 1 (min (cardWidth / wh.1) (maxImageHeight / wh.2))
  let drawHeight := wh.2 * scale
  let columnIndex := index % 2
  let stepped :=
    if columnIndex = 0 ∧ galleryY - drawHeight - 50 < env.config.margins.bottom then
      ({ st0 with
          pages := st0.pages ++ [⟨.gallery, none⟩]
          events := st0.events ++ [.pageCreated ⟨.gallery, none⟩, .rect] },
        pageHeight env - env.config.margins.top)
    else (st0, galleryY)
  let st2 : BuildState := { stepped.1 with
    events := stepped.1.events ++ [.rect, .image asset.id, .text (galleryCaption asset)] }
  let rowMax2 := max rowMaxHeight drawHeight
  if columnIndex = 2 - 1 ∨ index = total - 1 then
    (st2, stepped.2 - (rowMax2 + 80), 0)
  else (st2, stepped.2, rowMax2)

/-- The optional contributor gallery. -/
def renderGallery (env : Env) (galleryImages : List UserImageAsset)
    (st : BuildState) : BuildState :=
  if galleryImages.isEmpty then st
  else
    let st1 : BuildState := { st with
      pages := st.pages ++ [⟨.gallery, none⟩]
      events := st.events ++
        [.pageCreated ⟨.gallery, none⟩, .rect, .text "Contributor Gallery"] }
    let galleryY := pageHeight env - env.config.margins.top -
      env.config.fonts.heading.size * 1.4
    (galleryImages.enum.foldl (galleryStep env galleryImages.length)
      (st1, galleryY, 0)).1

/-! ## Deferred footer pass (`pdfService.ts` 812–840) -/

/-- The centred footer label. -/
def footerLabel (bookTitle : String) (meta : PageMeta) : String :=
  match meta.chapterTitle with
  | some t => bookTitle ++ " • " ++ t
  | none => bookTitle

/-- The footer loop: skip the cover, stamp a running 1-based counter on
every other page in creation order. -/
def footerGo (bookTitle : String) : List PageMeta → ℕ → List Ev
  | [], _ => []
  | m :: rest, counter =>
    if m.role = .cover then footerGo bookTitle rest counter
    else .footer (footerLabel bookTitle m) (counter + 1) ::
      footerGo bookTitle rest (counter + 1)

/-- The footer pass runs only when `config.pageNumbering` is set. -/
def footerPass (bookTitle : String) (pageNumbering : Bool)
    (metas : List PageMeta) : List Ev :=
  if pageNumbering then footerGo bookTitle metas 0 else []

/-! ## The top-level build (`buildBookPdf`) -/

/-- The build output: registered page metadata, TOC entries, the number of
reserved TOC placeholder pages, and the full event trace. -/
structure BuildOutput where
  pages : List PageMeta
  tocEntries : List TocEntry
  tocPagesReserved : ℕ
  events : List Ev
deriving DecidableEq, Repr

/-- The build pipeline after the `include` filter: cover, reserved TOC
pages, gallery, chapters, deferred TOC fill, deferred footer pass. -/
def buildWithIncluded (env : Env) (book : GeneratedBook)
    (included : List UserImageAsset) : BuildOutput :=
  let galleryImages := included.filter isGalleryImage
  let coverImages := included.filter isCoverImage
  let st1 := renderCover env book coverImages
  let tocCnt := tocPageCountOf env book.chapters.length
  let st2 := addTocPages env tocCnt st1
  let st3 := renderGallery env galleryImages st2
  let st4 := book.chapters.foldl (renderChapter env included) st3
  let tocEvs := renderTableOfContents env tocCnt st4.tocEntries
  let footEvs := footerPass book.config.title env.config.pageNumbering st4.pages
  ⟨st4.pages, st4.tocEntries, tocCnt, st4.events ++ tocEvs ++ footEvs⟩

/-- `buildBookPdf` from `pdfService.ts`: only the images with the `include`
flag take part in the build. -/
def buildBookPdf (env : Env) (book : GeneratedBook)
    (images : List UserImageAsset) : BuildOutput :=
  buildWithIncluded env book (includedOf images)

/-! ## Claim C10: images with `include = false` have no effect -/

theorem includedOf_idempotent (images : List UserImageAsset) :
    includedOf (includedOf images) = includedOf images := by
  unfold includedOf
  induction images with
  | nil => rfl
  | cons a as ih =>
    by_cases h : a.includeFlag <;> simp [List.filter_cons, h, ih]

/-- **C10**: building with the full image list yields the same output as
building with only the images whose include flag is true: non-included
images are never partitioned into cover, gallery, or chapter buckets and
never embedded. -/
theorem build_ignores_excluded_images (env : Env) (book : GeneratedBook)
    (images : List UserImageAsset) :
    buildBookPdf env book images =
      buildBookPdf env book (images.filter fun i => i.includeFlag) := by
  show buildWithIncluded env book (includedOf images) =
    buildWithIncluded env book (includedOf (includedOf images))
  rw [includedOf_idempotent]

/-! ## Claim C3: middle-anchor timing within a chapter -/

/-- Rendering a block list with no image interleaving (the loop with the
insertion flag already set, or the two phases around the insertion). -/
def renderBlocksPlain (env : Env) (chIndex : ℤ) (chTitle : String)
    (blocks : List StructuredBlock) (cs : CS) : CS :=
  blocks.foldl (renderBlock env chIndex chTitle) cs

theorem blockLoopF_inserted (env : Env) (cI : ℤ) (cT : String)
    (mI : List UserImageAsset) (trig : ℕ) :
    ∀ (blocks : List StructuredBlock) (idx : ℕ) (cs : CS),
      blockLoopF env cI cT mI trig blocks idx true cs =
        (renderBlocksPlain env cI cT blocks cs, true) := by
  intro blocks
  induction blocks with
  | nil => intro idx cs; rfl
  | cons b rest ih =>
    intro idx cs
    rw [blockLoopF]
    rw [if_neg (by simp)]
    exact ih (idx + 1) (renderBlock env cI cT cs b)

theorem blockLoopF_split (env : Env) (cI : ℤ) (cT : String)
    (mI : List UserImageAsset) (trig : ℕ) :
    ∀ (blocks : List StructuredBlock) (idx : ℕ) (cs : CS),
      idx + 1 ≤ trig → trig ≤ idx + blocks.length →
      blockLoopF env cI cT mI trig blocks idx false cs =
        (renderBlocksPlain env cI cT (blocks.drop (trig - idx))
          (drawImagesM env cI cT mI
            (renderBlocksPlain env cI cT (blocks.take (trig - idx)) cs)), true) := by
  intro blocks
  induction blocks with
  | nil =>
    intro idx cs h1 h2
    simp only [List.length_nil, Nat.add_zero] at h2
    omega
  | cons b rest ih =>
    intro idx cs h1 h2
    rw [blockLoopF]
    by_cases hc : trig ≤ idx + 1
    · have heq : trig - idx = 1 := by omega
      rw [if_pos ⟨rfl, hc⟩, blockLoopF_inserted, heq]
      rfl
    · rw [if_neg (by intro h; exact hc h.2)]
      have h1' : (idx + 1) + 1 ≤ trig := by omega
      have h2' : trig ≤ (idx + 1) + rest.length := by
        simp only [List.length_cons] at h2
        omega
      rw [ih (idx + 1) (renderBlock env cI cT cs b) h1' h2']
      have hk : trig - idx = (trig - (idx + 1)) + 1 := by omega
      rw [hk, List.take_succ_cons, List.drop_succ_cons]
      rfl

/-- **C3** (amended): within one chapter all `start` images are drawn
before any text block; `middle` images are drawn exactly once, immediately
after the rendered block count first reaches
`max 1 (floor(totalBlocks / 2))` — **floor**, not ceil — and immediately
(before end images) when the chapter has zero blocks; `end` images are
drawn after the last block. -/
theorem middleAnchor_floor_phases (env : Env) (cI : ℤ) (cT : String)
    (blocks : List StructuredBlock) (sI mI eI : List UserImageAsset) (cs : CS) :
    (blocks = [] →
      chapterFlow env cI cT blocks sI mI eI cs =
        drawImagesM env cI cT eI
          (drawImagesM env cI cT mI (drawImagesM env cI cT sI cs))) ∧
    (blocks ≠ [] →
      chapterFlow env cI cT blocks sI mI eI cs =
        drawImagesM env cI cT eI
          (renderBlocksPlain env cI cT (blocks.drop (middleTriggerOf blocks.length))
            (drawImagesM env cI cT mI
              (renderBlocksPlain env cI cT
                (blocks.take (middleTriggerOf blocks.length))
                (drawImagesM env cI cT sI cs))))) := by
  constructor
  · intro h
    subst h
    rfl
  · intro h
    have hlen : 1 ≤ blocks.length := by
      cases blocks with
      | nil => exact absurd rfl h
      | cons a as => simp
    have hsplit := blockLoopF_split env cI cT mI (middleTriggerOf blocks.length)
      blocks 0 (drawImagesM env cI cT sI cs)
      (by unfold middleTriggerOf; omega) (by unfold middleTriggerOf; omega)
    simp only [chapterFlow, hsplit, Nat.sub_zero, if_pos rfl]
    simp

/-! ### Concrete fixtures for the C3 counterexample and witness -/

/-- A concrete environment with a simple character-count width metric. -/
def envC : Env where
  config :=
    { pageSize := .Letter
      margins := ⟨50, 50, 50, 50⟩
      pageNumbering := true
      fonts := ⟨⟨.Helvetica, 40, true⟩, ⟨.Helvetica, 24, true⟩, ⟨.TimesRoman, 10, false⟩⟩
      stylePreset := .editorial }
  fontWidth := fun _ _ s sz => sz * (s.length : ℚ)
  dims := fun _ => (1, 1)

/-- Three headings (the cheapest block kind to render). -/
def blocksC : List StructuredBlock :=
  [.heading 1 "a", .heading 1 "b", .heading 1 "c"]

/-- One middle-anchored chapter image. -/
def imgMidC : UserImageAsset :=
  ⟨"imgM", "m", "d", 1, "image/png", true, none, 0, some (.chapter 1 (some .middle))⟩

/-- A chapter-local state with plenty of vertical room. -/
def csC : CS := ⟨[⟨.chapter, some "Ttl"⟩], 500, []⟩

/-- The midpoint trigger as the claim states it: `ceil(totalBlocks/2)`,
minimum 1 (modelled from the claim's words, for comparison with the
code's floor-based trigger). -/
def claimMiddleTrigger (totalBlocks : ℕ) : ℕ :=
  max 1 ((totalBlocks + 1) / 2)

set_option maxRecDepth 4000 in
/-- **C3** (counterexample): for a chapter with three blocks, the code
inserts the middle images after block 1 (`max 1 (floor 3/2) = 1`), not
after block 2 (`ceil(3/2) = 2`) as the claim states: the claim's phase
decomposition does not match the rendered trace. -/
theorem middleAnchor_ceil_cex :
    chapterFlow envC 1 "Ttl" blocksC [] [imgMidC] [] csC ≠
      drawImagesM envC 1 "Ttl" []
        (renderBlocksPlain envC 1 "Ttl" (blocksC.drop (claimMiddleTrigger blocksC.length))
          (drawImagesM envC 1 "Ttl" [imgMidC]
            (renderBlocksPlain envC 1 "Ttl"
              (blocksC.take (claimMiddleTrigger blocksC.length))
              (drawImagesM envC 1 "Ttl" [] csC)))) := by
  with_unfolding_all decide

/-- Witness for the amended C3 at the concrete three-block chapter. -/
theorem middleAnchor_floor_phases_witness :
    blocksC ≠ [] ∧
    chapterFlow envC 1 "Ttl" blocksC [] [imgMidC] [] csC =
      drawImagesM envC 1 "Ttl" []
        (renderBlocksPlain envC 1 "Ttl" (blocksC.drop (middleTriggerOf blocksC.length))
          (drawImagesM envC 1 "Ttl" [imgMidC]
            (renderBlocksPlain envC 1 "Ttl"
              (blocksC.take (middleTriggerOf blocksC.length))
              (drawImagesM envC 1 "Ttl" [] csC)))) :=
  ⟨by decide,
    (middleAnchor_floor_phases envC 1 "Ttl" blocksC [] [imgMidC] [] csC).2 (by decide)⟩

/-! ## Claim C1: TOC page numbers -/

/-- The blocks actually rendered for a chapter. -/
def chapterParsedBlocks (ch : ChapterContent) : List StructuredBlock :=
  stripLeadingChapterHeading (parseMarkdownToBlocks ch.text) ch.title

/-- With no images assigned, a chapter renders iff its text is non-blank
and stripping leaves at least one block. -/
def chapterRendersBare (ch : ChapterContent) : Bool :=
  !decide (jsTrimS ch.text = "") && !decide (chapterParsedBlocks ch = [])

/-- The chapters that contribute pages and a TOC entry in an image-free
build, in order. -/
def renderedChapters (book : GeneratedBook) : List ChapterContent :=
  book.chapters.filter chapterRendersBare

/-- The number of pages a chapter produces in an image-free build. -/
def chapterPageCount (env : Env) (ch : ChapterContent) : ℕ :=
  (renderChapterCore env ch.index ch.title (chapterParsedBlocks ch) []).newPages.length

/-- The expected TOC entries: each rendered chapter gets the running page
count (cover + reserved TOC pages + pages of earlier chapters) as its page
number. -/
def tocSpec (env : Env) : ℕ → List ChapterContent → List TocEntry
  | _, [] => []
  | base, ch :: rest =>
    ⟨"Chapter " ++ toString ch.index ++ ": " ++ ch.title, base⟩ ::
      tocSpec env (base + chapterPageCount env ch) rest

theorem renderChapter_no_images (env : Env) (st : BuildState) (ch : ChapterContent) :
    renderChapter env [] st ch =
      if chapterRendersBare ch then
        { pages := st.pages ++
            (renderChapterCore env ch.index ch.title (chapterParsedBlocks ch) []).newPages
          tocEntries := st.tocEntries ++
            [⟨"Chapter " ++ toString ch.index ++ ": " ++ ch.title,
              max 1 (st.pages.length + 1 - coverPageCount)⟩]
          events := st.events ++
            (renderChapterCore env ch.index ch.title (chapterParsedBlocks ch) []).events }
      else st := by
  unfold renderChapter chapterRendersBare chapterParsedBlocks
  have hassigned : chapterImagesFor [] ch.index = [] := rfl
  rw [hassigned]
  by_cases h1 : jsTrimS ch.text = "" <;>
    by_cases h2 : stripLeadingChapterHeading (parseMarkdownToBlocks ch.text) ch.title = [] <;>
    simp [h1, h2]

theorem chapters_fold_spec (env : Env) :
    ∀ (chs : List ChapterContent) (st : BuildState), 1 ≤ st.pages.length →
      (chs.foldl (renderChapter env []) st).pages.length =
        st.pages.length +
          (((chs.filter chapterRendersBare).map (chapterPageCount env)).sum) ∧
      (chs.foldl (renderChapter env []) st).tocEntries =
        st.tocEntries ++ tocSpec env st.pages.length (chs.filter chapterRendersBare) := by
  intro chs
  induction chs with
  | nil =>
    intro st _
    simp [tocSpec]
  | cons ch rest ih =>
    intro st hbase
    rw [List.foldl_cons, List.filter_cons]
    by_cases hr : chapterRendersBare ch
    · rw [if_pos hr]
      set core := renderChapterCore env ch.index ch.title (chapterParsedBlocks ch) [] with hcore
      have hstep : renderChapter env [] st ch =
          { pages := st.pages ++ core.newPages
            tocEntries := st.tocEntries ++
              [⟨"Chapter " ++ toString ch.index ++ ": " ++ ch.title,
                max 1 (st.pages.length + 1 - coverPageCount)⟩]
            events := st.events ++ core.events } := by
        rw [renderChapter_no_images, if_pos hr]
      have hnum : max 1 (st.pages.length + 1 - coverPageCount) = st.pages.length := by
        unfold coverPageCount
        omega
      rw [hstep, hnum]
      have hbase' : 1 ≤ (st.pages ++ core.newPages).length := by
        simp only [List.length_append]
        omega
      rcases ih { pages := st.pages ++ core.newPages
                  tocEntries := st.tocEntries ++
                    [⟨"Chapter " ++ toString ch.index ++ ": " ++ ch.title, st.pages.length⟩]
                  events := st.events ++ core.events } hbase' with ⟨hl, ht⟩
      constructor
      · rw [hl]
        simp only [List.length_append, List.map_cons, List.sum_cons]
        show st.pages.length + core.newPages.length + _ =
          st.pages.length + (chapterPageCount env ch + _)
        unfold chapterPageCount
        rw [← hcore]
        omega
      · rw [ht]
        simp only [List.length_append, tocSpec, List.append_assoc, List.cons_append,
          List.nil_append]
        show _ ++ (⟨_, st.pages.length⟩ :: tocSpec env (st.pages.length + core.newPages.length) _) =
          _ ++ (⟨_, st.pages.length⟩ :: tocSpec env (st.pages.length + chapterPageCount env ch) _)
        unfold chapterPageCount
        rw [← hcore]
    · rw [if_neg hr]
      have hstep : renderChapter env [] st ch = st := by
        rw [renderChapter_no_images, if_neg hr]
      rw [hstep]
      exact ih st hbase

theorem addTocPages_pages (env : Env) :
    ∀ (n : ℕ) (st : BuildState),
      (addTocPages env n st).pages = st.pages ++ List.replicate n ⟨.toc, none⟩ ∧
      (addTocPages env n st).tocEntries = st.tocEntries := by
  intro n
  induction n with
  | zero => intro st; simp [addTocPages]
  | succ m ih =>
    intro st
    rw [addTocPages]
    rcases ih { st with
      pages := st.pages ++ [⟨.toc, none⟩]
      events := st.events ++
        [.pageCreated ⟨.toc, none⟩, .rect, .text "Table of Contents", .rect] } with ⟨hp, ht⟩
    constructor
    · rw [hp]
      simp [List.replicate_succ]
    · exact ht

theorem renderGallery_nil (env : Env) (st : BuildState) :
    renderGallery env [] st = st := by
  simp [renderGallery]

theorem tocSpec_get? (env : Env) :
    ∀ (chs : List ChapterContent) (base k : ℕ) (e : TocEntry),
      (tocSpec env base chs).get? k = some e →
      e.pageNumber = base + ((chs.take k).map (chapterPageCount env)).sum := by
  intro chs
  induction chs with
  | nil => intro base k e h; simp [tocSpec] at h
  | cons ch rest ih =>
    intro base k e h
    cases k with
    | zero =>
      simp only [tocSpec, List.get?] at h
      cases h
      simp
    | succ j =>
      simp only [tocSpec, List.get?] at h
      have := ih (base + chapterPageCount env ch) j e h
      rw [this]
      simp only [List.take_succ_cons, List.map_cons, List.sum_cons]
      omega

/-- The image-free build in terms of its phases. -/
theorem build_no_images_toc (env : Env) (book : GeneratedBook) :
    (buildBookPdf env book []).tocEntries =
      tocSpec env (1 + tocPageCountOf env book.chapters.length) (renderedChapters book) ∧
    (buildBookPdf env book []).tocPagesReserved =
      tocPageCountOf env book.chapters.length := by
  unfold buildBookPdf buildWithIncluded includedOf
  simp only [List.filter_nil]
  set tocCnt := tocPageCountOf env book.chapters.length with htc
  set st1 := renderCover env book [] with hst1
  set st2 := addTocPages env tocCnt st1 with hst2
  rcases addTocPages_pages env tocCnt st1 with ⟨hp2, ht2⟩
  have hcoverPages : st1.pages = [⟨.cover, none⟩] := rfl
  have hcoverToc : st1.tocEntries = [] := rfl
  have hlen2 : st2.pages.length = 1 + tocCnt := by
    rw [← hst2] at hp2
    rw [hp2, hcoverPages]
    simp
    omega
  rw [renderGallery_nil]
  rcases chapters_fold_spec env book.chapters st2 (by omega) with ⟨-, htoc⟩
  constructor
  · show (book.chapters.foldl (renderChapter env []) st2).tocEntries = _
    rw [htoc, ← hst2] at *
    rw [ht2, hcoverToc, hlen2]
    rfl
  · trivial

/-- **C1**: for an image-free build, the TOC entry recorded for the k-th
rendered chapter carries page number
`1 (cover excluded) + (reserved TOC placeholder pages) + (sum of the page
counts of the previously rendered chapters)` — which is precisely the
count of page-metadata records when the chapter's first page is created,
minus the cover page count. -/
theorem tocPageNumber_correct (env : Env) (book : GeneratedBook) (k : ℕ)
    (e : TocEntry) (he : (buildBookPdf env book []).tocEntries.get? k = some e) :
    e.pageNumber = 1 + (buildBookPdf env book []).tocPagesReserved +
      (((renderedChapters book).take k).map (chapterPageCount env)).sum := by
  rcases build_no_images_toc env book with ⟨htoc, hres⟩
  rw [htoc] at he
  rw [hres]
  exact tocSpec_get? env (renderedChapters book) _ k e he

/-- A one-chapter book for the C1 and C7 witnesses (the chapter text is a
heading so evaluation stays small). -/
def bookC1 : GeneratedBook :=
  ⟨⟨"T", "topic", "Fiction", "kids", "en", "warm", 1, 100, none⟩,
    [⟨1, "Ttl", "# Hi"⟩]⟩

set_option maxRecDepth 4000 in
/-- Witness for C1: the single chapter's entry is page
`2 = 1 + 1 reserved TOC page + 0`. -/
theorem tocPageNumber_correct_witness :
    (buildBookPdf envC bookC1 []).tocEntries.get? 0 = some ⟨"Chapter 1: Ttl", 2⟩ ∧
    (2 : ℕ) = 1 + (buildBookPdf envC bookC1 []).tocPagesReserved +
      (((renderedChapters bookC1).take 0).map (chapterPageCount envC)).sum := by
  have he : (buildBookPdf envC bookC1 []).tocEntries.get? 0 =
      some ⟨"Chapter 1: Ttl", 2⟩ := by
    with_unfolding_all decide
  exact ⟨he, tocPageNumber_correct envC bookC1 0 ⟨"Chapter 1: Ttl", 2⟩ he⟩

/-! ## Invariants of the chapter renderer (used by C7 and C8)

Every page a chapter creates is a chapter page carrying that chapter's
title, and every image drawn or embedded during a chapter belongs to the
chapter's assigned image list. -/

/-- The page metadata every chapter-created page carries. -/
def chapterMeta (chTitle : String) : PageMeta := ⟨.chapter, some chTitle⟩

def PagesOk (chTitle : String) (ps : List PageMeta) : Prop :=
  ∀ p ∈ ps, p = chapterMeta chTitle

/-- The asset ids an event may mention. -/
def EvOk (allowed : List String) : Ev → Prop
  | .image i => i ∈ allowed
  | .embedReq i => i ∈ allowed
  | _ => True

def EvsOk (allowed : List String) (evs : List Ev) : Prop :=
  ∀ e ∈ evs, EvOk allowed e

/-- The combined chapter-state invariant. -/
def CSok (chTitle : String) (allowed : List String) (cs : CS) : Prop :=
  PagesOk chTitle cs.newPages ∧ EvsOk allowed cs.events

@[simp] theorem EvOk_pageCreated {A : List String} {m : PageMeta} :
    EvOk A (.pageCreated m) := trivial

@[simp] theorem EvOk_rect {A : List String} : EvOk A .rect := trivial

@[simp] theorem EvOk_text {A : List String} {s : String} : EvOk A (.text s) := trivial

@[simp] theorem EvOk_footer {A : List String} {s : String} {n : ℕ} :
    EvOk A (.footer s n) := trivial

@[simp] theorem EvOk_image_iff {A : List String} {i : String} :
    EvOk A (.image i) ↔ i ∈ A := Iff.rfl

@[simp] theorem EvOk_embedReq_iff {A : List String} {i : String} :
    EvOk A (.embedReq i) ↔ i ∈ A := Iff.rfl

@[simp] theorem EvsOk_nil {A : List String} : EvsOk A [] := by
  intro e he; simp at he

@[simp] theorem EvsOk_cons {A : List String} {e : Ev} {l : List Ev} :
    EvsOk A (e :: l) ↔ EvOk A e ∧ EvsOk A l := by
  unfold EvsOk
  simp

@[simp] theorem EvsOk_append {A : List String} {l1 l2 : List Ev} :
    EvsOk A (l1 ++ l2) ↔ EvsOk A l1 ∧ EvsOk A l2 := by
  unfold EvsOk
  simp [or_imp, forall_and]

@[simp] theorem EvsOk_map_text {A : List String} (l : List String) :
    EvsOk A (l.map Ev.text) := by
  intro e he
  rcases List.mem_map.mp he with ⟨s, -, rfl⟩
  trivial

theorem EvsOk_mono {A B : List String} (hs : ∀ i ∈ A, i ∈ B) {l : List Ev}
    (h : EvsOk A l) : EvsOk B l := by
  intro e he
  have := h e he
  cases e <;> simp only [EvOk] at this ⊢ <;> first | exact hs _ this | trivial

@[simp] theorem PagesOk_nil {T : String} : PagesOk T [] := by
  intro p hp; simp at hp

@[simp] theorem PagesOk_cons {T : String} {p : PageMeta} {l : List PageMeta} :
    PagesOk T (p :: l) ↔ p = chapterMeta T ∧ PagesOk T l := by
  unfold PagesOk
  simp

@[simp] theorem PagesOk_append {T : String} {l1 l2 : List PageMeta} :
    PagesOk T (l1 ++ l2) ↔ PagesOk T l1 ∧ PagesOk T l2 := by
  unfold PagesOk
  simp [or_imp, forall_and]

theorem chapterPageFactory_ok (env : Env) (cI : ℤ) (T : String) (A : List String)
    (b : Bool) (cs : CS) (h : CSok T A cs) :
    CSok T A (chapterPageFactory env cI T b cs).1 := by
  obtain ⟨hp, he⟩ := h
  unfold chapterPageFactory
  cases b <;> constructor <;> simp_all [chapterMeta]

theorem ensureSpace_ok (env : Env) (cI : ℤ) (T : String) (A : List String)
    (needed : ℚ) (cs : CS) (h : CSok T A cs) :
    CSok T A (ensureSpace env cI T needed cs) := by
  unfold ensureSpace
  by_cases hc : cs.y - needed < env.config.margins.bottom
  · rw [if_pos hc]
    exact chapterPageFactory_ok env cI T A false cs h
  · rw [if_neg hc]
    exact h

theorem drawChapterImage_ok (env : Env) (cI : ℤ) (T : String) (A : List String)
    (asset : UserImageAsset) (hid : asset.id ∈ A) (cs : CS) (h : CSok T A cs) :
    CSok T A (drawChapterImage env cI T asset cs) := by
  have h0 : CSok T A { cs with events := cs.events ++ [.embedReq asset.id] } :=
    ⟨h.1, EvsOk_append.mpr ⟨h.2, by simp [hid]⟩⟩
  simp only [drawChapterImage]
  rcases hcap : asset.caption with _ | cap
  · dsimp only
    exact ⟨(ensureSpace_ok env cI T A _ _ h0).1,
      EvsOk_append.mpr ⟨(ensureSpace_ok env cI T A _ _ h0).2, by simp [hid]⟩⟩
  · dsimp only
    by_cases hne : jsTrimS cap ≠ ""
    · rw [if_pos hne]
      exact ⟨(ensureSpace_ok env cI T A _ _ h0).1,
        EvsOk_append.mpr ⟨EvsOk_append.mpr
          ⟨(ensureSpace_ok env cI T A _ _ h0).2, by simp [hid]⟩, by simp⟩⟩
    · rw [if_neg hne]
      exact ⟨(ensureSpace_ok env cI T A _ _ h0).1,
        EvsOk_append.mpr ⟨(ensureSpace_ok env cI T A _ _ h0).2, by simp [hid]⟩⟩

theorem drawImagesM_ok (env : Env) (cI : ℤ) (T : String) (A : List String)
    (images : List UserImageAsset) (hids : ∀ a ∈ images, a.id ∈ A) :
    ∀ (cs : CS), CSok T A cs → CSok T A (drawImagesM env cI T images cs) := by
  unfold drawImagesM
  induction images with
  | nil => intro cs h; exact h
  | cons a rest ih =>
    intro cs h
    rw [List.foldl_cons]
    exact ih (fun x hx => hids x (List.mem_cons_of_mem _ hx)) _
      (drawChapterImage_ok env cI T A a (hids a (List.mem_cons_self _ _)) cs h)

theorem drawParagraphLines_ok (env : Env) (cI : ℤ) (T : String) (A : List String)
    (lh : ℚ) (bullet : Option String) :
    ∀ (lines : List (List StyledToken)) (isFirst : Bool) (cs : CS),
      CSok T A cs → CSok T A (drawParagraphLines env cI T lh bullet lines isFirst cs) := by
  intro lines
  induction lines with
  | nil => intro isFirst cs h; exact h
  | cons line rest ih =>
    intro isFirst cs h
    rw [drawParagraphLines.eq_def]
    dsimp only
    apply ih false
    have h1 := ensureSpace_ok env cI T A lh cs h
    have hline : ∀ (c : CS), CSok T A c →
        CSok T A ⟨c.newPages, c.y - lh, drawRichLine line c.events⟩ := by
      intro c hc
      refine ⟨hc.1, ?_⟩
      unfold drawRichLine
      refine EvsOk_append.mpr ⟨hc.2, ?_⟩
      intro e he
      rcases List.mem_map.mp he with ⟨t, -, rfl⟩
      trivial
    rcases bullet with _ | g
    · cases isFirst
      · rw [if_neg Bool.false_ne_true]
        exact hline _ h1
      · rw [if_pos rfl]
        dsimp only
        exact hline _ h1
    · cases isFirst
      · rw [if_neg Bool.false_ne_true]
        exact hline _ h1
      · rw [if_pos rfl]
        dsimp only
        exact hline ⟨(ensureSpace env cI T lh cs).newPages,
            (ensureSpace env cI T lh cs).y,
            (ensureSpace env cI T lh cs).events ++ [Ev.text g]⟩
          ⟨h1.1, EvsOk_append.mpr ⟨h1.2, by simp [EvsOk]⟩⟩

theorem drawRichParagraph_ok (env : Env) (cI : ℤ) (T : String) (A : List String)
    (spans : List RichTextSpan) (fonts : FontSet) (cw fs lh ps : ℚ)
    (options : ParagraphOptions) (cs : CS) (h : CSok T A cs) :
    CSok T A (drawRichParagraph env cI T spans fonts cw fs lh ps options cs) := by
  unfold drawRichParagraph
  by_cases h1 : spans = []
  · rw [if_pos h1]; exact h
  · rw [if_neg h1]
    by_cases h2 : wrapTokens (tokenizeSpans spans fonts fs)
        (max 20 (cw - options.indent.getD 0)) = []
    · rw [if_pos h2]; exact h
    · rw [if_neg h2]
      have h3 := drawParagraphLines_ok env cI T A lh options.bulletGlyph
        (wrapTokens (tokenizeSpans spans fonts fs) (max 20 (cw - options.indent.getD 0)))
        true cs h
      exact ⟨h3.1, h3.2⟩

theorem renderBlock_ok (env : Env) (cI : ℤ) (T : String) (A : List String)
    (block : StructuredBlock) (cs : CS) (h : CSok T A cs) :
    CSok T A (renderBlock env cI T cs block) := by
  cases block with
  | heading level text =>
    unfold renderBlock
    have h1 := ensureSpace_ok env cI T A
      ((if level ≤ 2 then env.config.fonts.heading.size
        else env.config.fonts.heading.size * 0.9) * 2) cs h
    exact ⟨h1.1, EvsOk_append.mpr ⟨h1.2, by simp⟩⟩
  | list ord items =>
    show CSok T A (items.foldl _ cs)
    induction items generalizing cs with
    | nil => exact h
    | cons item rest ih =>
      rw [List.foldl_cons]
      exact ih _ (drawRichParagraph_ok env cI T A item _ _ _ _ _ _ cs h)
  | quote spans =>
    exact drawRichParagraph_ok env cI T A spans _ _ _ _ _ _ cs h
  | paragraph spans =>
    exact drawRichParagraph_ok env cI T A spans _ _ _ _ _ _ cs h

theorem blockLoopF_ok (env : Env) (cI : ℤ) (T : String) (A : List String)
    (mI : List UserImageAsset) (trig : ℕ) (hids : ∀ a ∈ mI, a.id ∈ A) :
    ∀ (blocks : List StructuredBlock) (idx : ℕ) (inserted : Bool) (cs : CS),
      CSok T A cs →
      CSok T A (blockLoopF env cI T mI trig blocks idx inserted cs).1 := by
  intro blocks
  induction blocks with
  | nil => intro idx inserted cs h; exact h
  | cons b rest ih =>
    intro idx inserted cs h
    rw [blockLoopF]
    have h1 := renderBlock_ok env cI T A b cs h
    by_cases hc : inserted = false ∧ trig ≤ idx + 1
    · rw [if_pos hc]
      exact ih _ _ _ (drawImagesM_ok env cI T A mI hids _ h1)
    · rw [if_neg hc]
      exact ih _ _ _ h1

theorem chapterFlow_ok (env : Env) (cI : ℤ) (T : String) (A : List String)
    (blocks : List StructuredBlock) (sI mI eI : List UserImageAsset)
    (hs : ∀ a ∈ sI, a.id ∈ A) (hm : ∀ a ∈ mI, a.id ∈ A)
    (hen : ∀ a ∈ eI, a.id ∈ A) (cs : CS) (h : CSok T A cs) :
    CSok T A (chapterFlow env cI T blocks sI mI eI cs) := by
  unfold chapterFlow
  apply drawImagesM_ok env cI T A eI hen
  have h1 := drawImagesM_ok env cI T A sI hs cs h
  have h2 := blockLoopF_ok env cI T A mI (middleTriggerOf blocks.length) hm blocks 0 false _ h1
  by_cases hr : (blockLoopF env cI T mI (middleTriggerOf blocks.length) blocks 0 false
      (drawImagesM env cI T sI cs)).2
  · rw [if_pos hr]
    exact h2
  · rw [if_neg hr]
    exact drawImagesM_ok env cI T A mI hm _ h2

/-- Every page created by a chapter carries `role = chapter` and the
chapter's title, and every image/embed event mentions an assigned asset. -/
theorem renderChapterCore_spec (env : Env) (cI : ℤ) (T : String)
    (blocks : List StructuredBlock) (assigned : List UserImageAsset) :
    PagesOk T (renderChapterCore env cI T blocks assigned).newPages ∧
    EvsOk (assigned.map fun a => a.id)
      (renderChapterCore env cI T blocks assigned).events := by
  unfold renderChapterCore
  have h0 : CSok T (assigned.map fun a => a.id) (⟨[], 0, []⟩ : CS) := ⟨by simp, by simp⟩
  have h1 := chapterPageFactory_ok env cI T (assigned.map fun a => a.id) true
    ⟨[], 0, []⟩ h0
  have hflow := chapterFlow_ok env cI T (assigned.map fun a => a.id) blocks
    (assigned.filter fun a => resolveAnchor a = .start)
    (assigned.filter fun a => resolveAnchor a = .middle)
    (assigned.filter fun a => resolveAnchor a = .ending)
    (fun a ha => List.mem_map.mpr ⟨a, List.mem_of_mem_filter ha, rfl⟩)
    (fun a ha => List.mem_map.mpr ⟨a, List.mem_of_mem_filter ha, rfl⟩)
    (fun a ha => List.mem_map.mpr ⟨a, List.mem_of_mem_filter ha, rfl⟩)
    { (chapterPageFactory env cI T true ⟨[], 0, []⟩).1 with
      y := (chapterPageFactory env cI T true ⟨[], 0, []⟩).2 }
    ⟨h1.1, h1.2⟩
  exact ⟨hflow.1, hflow.2⟩

/-! ## Build-level invariants (used by C7 and C8) -/

theorem EvOk_mono {A B : List String} (hs : ∀ i ∈ A, i ∈ B) :
    ∀ {e : Ev}, EvOk A e → EvOk B e := by
  intro e h
  cases e with
  | image i => exact hs i h
  | embedReq i => exact hs i h
  | pageCreated m => trivial
  | rect => trivial
  | text s => trivial
  | footer l n => trivial

/-- A fold whose every step appends elements satisfying `P` to the
projected list extends the initial projection by `P`-elements only. -/
theorem foldl_ext {α β γ : Type _} (f : β → α → β) (proj : β → List γ) (P : γ → Prop) :
    ∀ (l : List α),
      (∀ b a, a ∈ l → ∃ L, proj (f b a) = proj b ++ L ∧ ∀ x ∈ L, P x) →
      ∀ b, ∃ L, proj (List.foldl f b l) = proj b ++ L ∧ ∀ x ∈ L, P x := by
  intro l
  induction l with
  | nil => intro _ b; exact ⟨[], by simp, by simp⟩
  | cons a rest ih =>
    intro hstep b
    rcases hstep b a (List.mem_cons_self _ _) with ⟨L1, h1, hP1⟩
    rcases ih (fun b' a' ha' => hstep b' a' (List.mem_cons_of_mem _ ha')) (f b a) with
      ⟨L2, h2, hP2⟩
    refine ⟨L1 ++ L2, ?_, ?_⟩
    · rw [List.foldl_cons, h2, h1, List.append_assoc]
    · intro x hx
      rcases List.mem_append.mp hx with hx | hx
      · exact hP1 x hx
      · exact hP2 x hx

theorem enumFrom_snd_mem {α : Type _} : ∀ (l : List α) (n : ℕ) (p : ℕ × α),
    p ∈ List.enumFrom n l → p.2 ∈ l := by
  intro l
  induction l with
  | nil => intro n p hp; simp [List.enumFrom] at hp
  | cons a rest ih =>
    intro n p hp
    simp only [List.enumFrom] at hp
    rcases List.mem_cons.mp hp with rfl | hp
    · exact List.mem_cons_self _ _
    · exact List.mem_cons_of_mem _ (ih (n + 1) p hp)

/-- One gallery iteration appends only gallery pages and events that
mention only this iteration's asset. -/
theorem galleryStep_ext (env : Env) (tot : ℕ) (acc : BuildState × ℚ × ℚ)
    (p : ℕ × UserImageAsset) :
    ∃ Lp Le, (galleryStep env tot acc p).1.pages = acc.1.pages ++ Lp ∧
      (galleryStep env tot acc p).1.events = acc.1.events ++ Le ∧
      (∀ q ∈ Lp, q = (⟨.gallery, none⟩ : PageMeta)) ∧
      ∀ e ∈ Le, EvOk [p.2.id] e := by
  simp only [galleryStep]
  split <;> split <;>
    first
      | (refine ⟨[⟨.gallery, none⟩],
          [.embedReq p.2.id, .pageCreated ⟨.gallery, none⟩, .rect, .rect,
            .image p.2.id, .text (galleryCaption p.2)], ?_, ?_, ?_, ?_⟩ <;>
            (simp; done))
      | (refine ⟨[], [.embedReq p.2.id, .rect, .image p.2.id,
          .text (galleryCaption p.2)], ?_, ?_, ?_, ?_⟩ <;> (simp; done))

/-- The gallery phase appends only gallery pages and events mentioning
only gallery assets; TOC entries are untouched. -/
theorem renderGallery_ext (env : Env) (g : List UserImageAsset) (st : BuildState) :
    ∃ Lp Le, (renderGallery env g st).pages = st.pages ++ Lp ∧
      (renderGallery env g st).events = st.events ++ Le ∧
      (∀ q ∈ Lp, q = (⟨.gallery, none⟩ : PageMeta)) ∧
      ∀ e ∈ Le, EvOk (g.map fun a => a.id) e := by
  by_cases hg : g.isEmpty = true
  · rw [renderGallery, if_pos hg]
    exact ⟨[], [], by simp, by simp, by simp, by simp⟩
  · rw [renderGallery, if_neg hg]
    have hstepP : ∀ (b : BuildState × ℚ × ℚ) (a : ℕ × UserImageAsset), a ∈ g.enum →
        ∃ L, (galleryStep env g.length b a).1.pages = b.1.pages ++ L ∧
          ∀ x ∈ L, x = (⟨.gallery, none⟩ : PageMeta) := by
      intro b a _
      rcases galleryStep_ext env g.length b a with ⟨Lp, Le, h1, -, h3, -⟩
      exact ⟨Lp, h1, h3⟩
    have hstepE : ∀ (b : BuildState × ℚ × ℚ) (a : ℕ × UserImageAsset), a ∈ g.enum →
        ∃ L, (galleryStep env g.length b a).1.events = b.1.events ++ L ∧
          ∀ x ∈ L, EvOk (g.map fun i => i.id) x := by
      intro b a ha
      rcases galleryStep_ext env g.length b a with ⟨Lp, Le, -, h2, -, h4⟩
      refine ⟨Le, h2, fun x hx => EvOk_mono ?_ (h4 x hx)⟩
      intro i hi
      rcases List.mem_cons.mp hi with rfl | hi
      · exact List.mem_map.mpr ⟨a.2, enumFrom_snd_mem g 0 a ha, rfl⟩
      · simp at hi
    rcases foldl_ext (galleryStep env g.length) (fun acc => acc.1.pages)
        (fun q => q = (⟨.gallery, none⟩ : PageMeta)) g.enum hstepP _ with ⟨Lp, hp, hPp⟩
    rcases foldl_ext (galleryStep env g.length) (fun acc => acc.1.events)
        (fun e => EvOk (g.map fun i => i.id) e) g.enum hstepE _ with ⟨Le, he, hPe⟩
    refine ⟨⟨.gallery, none⟩ :: Lp,
      [.pageCreated ⟨.gallery, none⟩, .rect, .text "Contributor Gallery"] ++ Le,
      ?_, ?_, ?_, ?_⟩
    · rw [hp]; simp
    · rw [he]; simp
    · intro q hq
      rcases List.mem_cons.mp hq with rfl | hq
      · rfl
      · exact hPp q hq
    · intro e he'
      rcases List.mem_append.mp he' with he' | he'
      · rcases List.mem_cons.mp he' with rfl | he'
        · trivial
        · rcases List.mem_cons.mp he' with rfl | he'
          · trivial
          · rcases List.mem_cons.mp he' with rfl | he'
            · trivial
            · simp at he'
      · exact hPe e he'

/-- One chapter iteration appends only chapter-role pages and events
mentioning only that chapter's assigned images. -/
theorem renderChapter_ext (env : Env) (included : List UserImageAsset)
    (st : BuildState) (ch : ChapterContent) :
    ∃ Lp Le, (renderChapter env included st ch).pages = st.pages ++ Lp ∧
      (renderChapter env included st ch).events = st.events ++ Le ∧
      (∀ q ∈ Lp, q.role = PageRole.chapter) ∧
      ∀ e ∈ Le, EvOk ((chapterImagesFor included ch.index).map fun a => a.id) e := by
  simp only [renderChapter]
  by_cases h1 : jsTrimS ch.text = "" ∧ chapterImagesFor included ch.index = []
  · rw [if_pos h1]
    exact ⟨[], [], by simp, by simp, by simp, by simp⟩
  · rw [if_neg h1]
    by_cases h2 : stripLeadingChapterHeading (parseMarkdownToBlocks ch.text) ch.title = [] ∧
        chapterImagesFor included ch.index = []
    · rw [if_pos h2]
      exact ⟨[], [], by simp, by simp, by simp, by simp⟩
    · rw [if_neg h2]
      rcases renderChapterCore_spec env ch.index ch.title
        (stripLeadingChapterHeading (parseMarkdownToBlocks ch.text) ch.title)
        (chapterImagesFor included ch.index) with ⟨hp, he⟩
      refine ⟨_, _, rfl, rfl, ?_, he⟩
      intro q hq
      rw [hp q hq]
      rfl

/-- The cover phase creates exactly the cover page and mentions only
cover-slot assets. -/
theorem renderCover_spec (env : Env) (book : GeneratedBook)
    (coverImages : List UserImageAsset) :
    (renderCover env book coverImages).pages = [⟨.cover, none⟩] ∧
    EvsOk (coverImages.map fun a => a.id) (renderCover env book coverImages).events := by
  have hmem : ∀ (slot : CoverSlot) (a : UserImageAsset),
      coverSlotAsset coverImages slot = some a →
      a.id ∈ coverImages.map fun x => x.id := by
    intro slot a h
    exact List.mem_map.mpr ⟨a, List.mem_of_find?_eq_some h, rfl⟩
  refine ⟨rfl, ?_⟩
  simp only [renderCover]
  rcases hbg : coverSlotAsset coverImages CoverSlot.background with _ | a <;>
    rcases hbd : coverSlotAsset coverImages CoverSlot.badge with _ | b <;>
    rcases hdd : book.config.dedication with _ | d <;>
    dsimp only <;>
    (try split_ifs) <;>
    (intro e he
     cases e <;> simp_all <;>
       first
         | (subst he
            first
              | exact hmem _ _ hbg
              | exact hmem _ _ hbd)
         | (rcases he with rfl | rfl
            · exact hmem _ _ hbg
            · exact hmem _ _ hbd))

/-- The reserved-TOC phase emits only page/rect/text events. -/
theorem addTocPages_events (env : Env) (A : List String) :
    ∀ (n : ℕ) (st : BuildState),
      EvsOk A st.events → EvsOk A (addTocPages env n st).events := by
  intro n
  induction n with
  | zero => intro st h; exact h
  | succ m ih =>
    intro st h
    rw [addTocPages]
    apply ih
    exact EvsOk_append.mpr ⟨h, by simp⟩

/-- The deferred TOC fill emits only text events. -/
theorem tocFillGo_events (env : Env) (A : List String) :
    ∀ (entries : List TocEntry) (y : ℚ) (n : ℕ), EvsOk A (tocFillGo env entries y n) := by
  intro entries
  induction entries with
  | nil => intro y n; simp [tocFillGo]
  | cons e rest ih =>
    intro y n
    rw [tocFillGo.eq_def]
    dsimp only
    split
    · split
      · simp
      · exact EvsOk_append.mpr ⟨by simp, ih _ _⟩
    · exact EvsOk_append.mpr ⟨by simp, ih _ _⟩

theorem renderTableOfContents_events (env : Env) (A : List String) (cnt : ℕ)
    (entries : List TocEntry) : EvsOk A (renderTableOfContents env cnt entries) := by
  unfold renderTableOfContents
  split
  · simp
  · exact tocFillGo_events env A entries _ _

/-- The footer pass emits only footer events. -/
theorem footerGo_events (title : String) (A : List String) :
    ∀ (ms : List PageMeta) (n : ℕ), EvsOk A (footerGo title ms n) := by
  intro ms
  induction ms with
  | nil => intro n; simp [footerGo]
  | cons m rest ih =>
    intro n
    rw [footerGo.eq_def]
    dsimp only
    split
    · exact ih _
    · exact EvsOk_cons.mpr ⟨trivial, ih _⟩

theorem footerPass_events (title : String) (A : List String) (pn : Bool)
    (ms : List PageMeta) : EvsOk A (footerPass title pn ms) := by
  unfold footerPass
  split
  · exact footerGo_events title A ms 0
  · simp

/-- On a cover-free metadata list the footer loop stamps a running
1-based counter in creation order. -/
theorem footerGo_noCover (title : String) :
    ∀ (ms : List PageMeta) (n : ℕ), (∀ p ∈ ms, p.role ≠ PageRole.cover) →
      footerGo title ms n =
        (List.enumFrom n ms).map fun q => Ev.footer (footerLabel title q.2) (q.1 + 1) := by
  intro ms
  induction ms with
  | nil => intro n h; simp [footerGo, List.enumFrom]
  | cons m rest ih =>
    intro n h
    rw [footerGo.eq_def]
    dsimp only
    rw [if_neg (h m (List.mem_cons_self _ _))]
    simp only [List.enumFrom, List.map_cons]
    rw [ih (n + 1) (fun p hp => h p (List.mem_cons_of_mem _ hp))]

/-- All asset ids the build may legitimately draw or embed: cover-bucket
ids, gallery-bucket ids, and the ids assigned to some existing chapter. -/
def buildUsedIds (book : GeneratedBook) (included : List UserImageAsset) : List String :=
  ((included.filter isCoverImage).map fun a => a.id) ++
    ((included.filter isGalleryImage).map fun a => a.id) ++
    (book.chapters.map fun ch =>
      (chapterImagesFor included ch.index).map fun a => a.id).flatten

/-- Every image/embed event of a build mentions a used asset id. -/
theorem build_events_ok (env : Env) (book : GeneratedBook)
    (included : List UserImageAsset) :
    EvsOk (buildUsedIds book included) (buildWithIncluded env book included).events := by
  have hsubC : ∀ i ∈ (included.filter isCoverImage).map fun a => a.id,
      i ∈ buildUsedIds book included := fun i hi =>
    List.mem_append_left _ (List.mem_append_left _ hi)
  have hsubG : ∀ i ∈ (included.filter isGalleryImage).map fun a => a.id,
      i ∈ buildUsedIds book included := fun i hi =>
    List.mem_append_left _ (List.mem_append_right _ hi)
  have hsubCh : ∀ ch ∈ book.chapters,
      ∀ i ∈ (chapterImagesFor included ch.index).map fun a => a.id,
        i ∈ buildUsedIds book included := by
    intro ch hch i hi
    exact List.mem_append_right _
      (List.mem_flatten.mpr ⟨_, List.mem_map.mpr ⟨ch, hch, rfl⟩, hi⟩)
  simp only [buildWithIncluded]
  have h1 : EvsOk (buildUsedIds book included)
      (renderCover env book (included.filter isCoverImage)).events :=
    EvsOk_mono hsubC (renderCover_spec env book _).2
  have h2 : EvsOk (buildUsedIds book included)
      (addTocPages env (tocPageCountOf env book.chapters.length)
        (renderCover env book (included.filter isCoverImage))).events :=
    addTocPages_events env _ _ _ h1
  rcases renderGallery_ext env (included.filter isGalleryImage)
      (addTocPages env (tocPageCountOf env book.chapters.length)
        (renderCover env book (included.filter isCoverImage))) with
    ⟨Lp, Le, -, he3, -, hev3⟩
  have h3 : EvsOk (buildUsedIds book included)
      (renderGallery env (included.filter isGalleryImage)
        (addTocPages env (tocPageCountOf env book.chapters.length)
          (renderCover env book (included.filter isCoverImage)))).events := by
    rw [he3]
    exact EvsOk_append.mpr ⟨h2, fun e heL => EvOk_mono hsubG (hev3 e heL)⟩
  rcases foldl_ext (renderChapter env included) (fun s => s.events)
      (EvOk (buildUsedIds book included)) book.chapters
      (fun b ch hch => by
        rcases renderChapter_ext env included b ch with ⟨Lp', Le', -, he', -, hev'⟩
        exact ⟨Le', he', fun e heL => EvOk_mono (hsubCh ch hch) (hev' e heL)⟩)
      (renderGallery env (included.filter isGalleryImage)
        (addTocPages env (tocPageCountOf env book.chapters.length)
          (renderCover env book (included.filter isCoverImage)))) with ⟨Lc, he4, hev4⟩
  refine EvsOk_append.mpr ⟨EvsOk_append.mpr ⟨?_, ?_⟩, ?_⟩
  · rw [he4]
    exact EvsOk_append.mpr ⟨h3, hev4⟩
  · exact renderTableOfContents_events env _ _ _
  · exact footerPass_events _ _ _ _

/-- The registered page list is the cover page followed by cover-free
pages only. -/
theorem build_pages_cover_first (env : Env) (book : GeneratedBook)
    (included : List UserImageAsset) :
    ∃ L, (buildWithIncluded env book included).pages =
        (⟨.cover, none⟩ : PageMeta) :: L ∧
      ∀ p ∈ L, p.role ≠ PageRole.cover := by
  simp only [buildWithIncluded]
  rcases renderGallery_ext env (included.filter isGalleryImage)
      (addTocPages env (tocPageCountOf env book.chapters.length)
        (renderCover env book (included.filter isCoverImage))) with
    ⟨Lp, Le, hp3, -, hrole3, -⟩
  rcases foldl_ext (renderChapter env included) (fun s => s.pages)
      (fun q => q.role = PageRole.chapter) book.chapters
      (fun b ch _ => by
        rcases renderChapter_ext env included b ch with ⟨Lp', Le', hps, -, hrs, -⟩
        exact ⟨Lp', hps, hrs⟩)
      (renderGallery env (included.filter isGalleryImage)
        (addTocPages env (tocPageCountOf env book.chapters.length)
          (renderCover env book (included.filter isCoverImage)))) with ⟨Lc, hp4, hrole4⟩
  refine ⟨List.replicate (tocPageCountOf env book.chapters.length) ⟨.toc, none⟩ ++
    Lp ++ Lc, ?_, ?_⟩
  · rw [hp4, hp3, (addTocPages_pages env _ _).1]
    have hcv : (renderCover env book (included.filter isCoverImage)).pages =
      [⟨.cover, none⟩] := rfl
    rw [hcv]
    simp [List.append_assoc]
  · intro p hp
    rcases List.mem_append.mp hp with hp | hp
    · rcases List.mem_append.mp hp with hp | hp
      · rw [List.eq_of_mem_replicate hp]
        simp
      · rw [hrole3 p hp]
        simp
    · rw [hrole4 p hp]
      simp

/-! ## Claim C7: the cover page is unique and first, and the deferred
footer pass numbers every other page with a running 1-based counter -/

/-- **C7**: in every build the page-metadata list starts with the single
cover record and contains no other cover record; the emitted event trace
ends with the deferred footer pass, and (when page numbering is on) that
pass skips the cover and stamps page `j` of the remainder with counter
`j + 1` in creation order. -/
theorem cover_unique_and_footer (env : Env) (book : GeneratedBook)
    (images : List UserImageAsset) :
    (buildBookPdf env book images).pages.head? = some ⟨.cover, none⟩ ∧
    (∀ p ∈ (buildBookPdf env book images).pages.tail, p.role ≠ PageRole.cover) ∧
    (∃ evs : List Ev, (buildBookPdf env book images).events =
      evs ++ footerPass book.config.title env.config.pageNumbering
        (buildBookPdf env book images).pages) ∧
    (env.config.pageNumbering = true →
      footerPass book.config.title env.config.pageNumbering
          (buildBookPdf env book images).pages =
        (buildBookPdf env book images).pages.tail.enum.map
          fun q => Ev.footer (footerLabel book.config.title q.2) (q.1 + 1)) := by
  rcases build_pages_cover_first env book (includedOf images) with ⟨L, hL, hno⟩
  have hpages : (buildBookPdf env book images).pages =
      (⟨.cover, none⟩ : PageMeta) :: L := hL
  refine ⟨?_, ?_, ?_, ?_⟩
  · rw [hpages]
    rfl
  · rw [hpages]
    intro p hp
    exact hno p hp
  · exact ⟨_, rfl⟩
  · intro hpn
    rw [hpages]
    show footerPass book.config.title env.config.pageNumbering _ = _
    rw [footerPass, if_pos hpn, footerGo.eq_def]
    dsimp only
    rw [if_pos rfl]
    rw [footerGo_noCover book.config.title L 0 hno]
    rfl

/-- Witness for C7: a concrete one-chapter build with page numbering on.
The build has a cover, one reserved TOC page and one chapter page; the
footer pass stamps the latter two with counters 1 and 2. -/
theorem cover_unique_and_footer_witness :
    envC.config.pageNumbering = true ∧
    (buildBookPdf envC bookC1 []).pages.head? = some ⟨.cover, none⟩ ∧
    footerPass bookC1.config.title envC.config.pageNumbering
        (buildBookPdf envC bookC1 []).pages =
      (buildBookPdf envC bookC1 []).pages.tail.enum.map
        fun q => Ev.footer (footerLabel bookC1.config.title q.2) (q.1 + 1) :=
  ⟨rfl, (cover_unique_and_footer envC bookC1 []).1,
    (cover_unique_and_footer envC bookC1 []).2.2.2 rfl⟩

/-! ## Claim C8: a dangling chapter placement is silently skipped -/

/-- **C8**: an included image whose placement names a chapter index owned
by no chapter of the book is never drawn and never embedded anywhere in
the build (and the build, a total function here as in the source, which
falls back to an empty assignment for a missing map key, completes
normally). -/
theorem dangling_chapter_image_unused (env : Env) (book : GeneratedBook)
    (images : List UserImageAsset) (a : UserImageAsset) (k : ℤ)
    (anch : Option ChapterImageAnchor)
    (ha : a ∈ images) (hinc : a.includeFlag = true)
    (hpl : a.placement = some (.chapter k anch))
    (hk : ∀ ch ∈ book.chapters, ch.index ≠ k)
    (huniq : ∀ b ∈ images, b.id = a.id → b = a) :
    Ev.image a.id ∉ (buildBookPdf env book images).events ∧
    Ev.embedReq a.id ∉ (buildBookPdf env book images).events := by
  have hok : EvsOk (buildUsedIds book (includedOf images))
      (buildBookPdf env book images).events :=
    build_events_ok env book (includedOf images)
  have hincl : ∀ b ∈ includedOf images, b ∈ images := by
    intro b hb
    exact List.mem_of_mem_filter hb
  have hnot : a.id ∉ buildUsedIds book (includedOf images) := by
    intro hmem
    unfold buildUsedIds at hmem
    rcases List.mem_append.mp hmem with hmem | hmem
    · rcases List.mem_append.mp hmem with hmem | hmem
      · rcases List.mem_map.mp hmem with ⟨b, hb, hid⟩
        have hba : b = a := huniq b (hincl b (List.mem_of_mem_filter hb)) hid
        subst hba
        have hcv := List.of_mem_filter hb
        rw [isCoverImage, hpl] at hcv
        exact absurd hcv (by simp)
      · rcases List.mem_map.mp hmem with ⟨b, hb, hid⟩
        have hba : b = a := huniq b (hincl b (List.mem_of_mem_filter hb)) hid
        subst hba
        have hgl := List.of_mem_filter hb
        rw [isGalleryImage, hpl] at hgl
        exact absurd hgl (by simp)
    · rcases List.mem_flatten.mp hmem with ⟨s, hs, hin⟩
      rcases List.mem_map.mp hs with ⟨ch, hch, rfl⟩
      rcases List.mem_map.mp hin with ⟨b, hb, hid⟩
      have hba : b = a := huniq b (hincl b (List.mem_of_mem_filter hb)) hid
      subst hba
      have hcf := List.of_mem_filter hb
      rw [hpl] at hcf
      simp only [decide_eq_true_eq] at hcf
      exact hk ch hch hcf.symm
  constructor
  · intro hmem
    exact hnot (hok _ hmem)
  · intro hmem
    exact hnot (hok _ hmem)

/-- An included image pointing at the nonexistent chapter 5 of the
one-chapter witness book. -/
def imgDangling : UserImageAsset :=
  ⟨"imgX", "x", "d", 1, "image/png", true, none, 0, some (.chapter 5 none)⟩

/-- Witness for C8 at the concrete one-chapter book: the dangling image is
included yet its id occurs in no draw or embed event of the build. -/
theorem dangling_chapter_image_unused_witness :
    imgDangling ∈ [imgDangling] ∧ imgDangling.includeFlag = true ∧
    Ev.image imgDangling.id ∉ (buildBookPdf envC bookC1 [imgDangling]).events ∧
    Ev.embedReq imgDangling.id ∉ (buildBookPdf envC bookC1 [imgDangling]).events := by
  have h := dangling_chapter_image_unused envC bookC1 [imgDangling] imgDangling 5 none
    (List.mem_cons_self _ _) rfl rfl
    (by
      intro ch hch
      rcases List.mem_cons.mp hch with rfl | hch
      · decide
      · simp at hch)
    (by
      intro b hb _
      rcases List.mem_cons.mp hb with rfl | hb
      · rfl
      · simp at hb)
  exact ⟨List.mem_cons_self _ _, rfl, h.1, h.2⟩

end KITSS
